import Mathlib

/-!
Shallow embedding of the rule-matching decision engine of
`src/server/engines/decision-engine.ts` (classes `Tokenizer`, `Parser`,
`Evaluator`, `DecisionEngine`).

Modelling conventions:
* JavaScript numbers are modelled as exact rationals (`ℚ`).  Every numeric
  value exercised by the verified claims is a small integer or a short
  terminating decimal, all exactly representable as IEEE doubles, so the
  rational model agrees with the JavaScript semantics on them.
* JavaScript exceptions are modelled with `Except String`; the thrown
  error's `message` is the carried string.
* The mutable `DecisionEngine` instance state (`ruleIndex`, `indexDirty`,
  `cachedRules`, `metrics`) is threaded explicitly as an `EngineState`.
* Readings of the wall clock (`performance.now()` differences and
  `Date.now()`) are passed in as explicit parameters.
-/

namespace DecisionEngineModel

/-- Whitespace characters as matched by the JavaScript regexp `\s`
(ASCII whitespace plus no-break space; the repository's condition strings
use only ASCII). -/
def jsIsWhitespace (c : Char) : Bool :=
  c = ' ' || c = '\t' || c = '\n' || c = '\r' || c = '\x0b' || c = '\x0c' || c = ' '

/-- `String.prototype.trim` on a character list. -/
def jsTrim (cs : List Char) : List Char :=
  ((cs.dropWhile jsIsWhitespace).reverse.dropWhile jsIsWhitespace).reverse

/-- The regexp `\d` (`Tokenizer.isDigit`). -/
def jsIsDigit (c : Char) : Bool := '0' ≤ c && c ≤ '9'

/-- The regexp `[a-zA-Z]` (`Tokenizer.isAlpha`). -/
def jsIsAlpha (c : Char) : Bool := ('a' ≤ c && c ≤ 'z') || ('A' ≤ c && c ≤ 'Z')

/-- The regexp `[a-zA-Z0-9]` (`Tokenizer.isAlphaNumeric`). -/
def jsIsAlphaNum (c : Char) : Bool := jsIsAlpha c || jsIsDigit c

/-- The regexp `\w`: word characters. -/
def jsIsWordChar (c : Char) : Bool := jsIsAlphaNum c || c = '_'

/-- Decimal digits to a natural number. -/
def digitsToNat (ds : List Char) : Nat :=
  ds.foldl (fun acc d => 10 * acc + (d.toNat - 48)) 0

/-- `parseFloat`: skip leading whitespace, optional sign, longest valid
decimal prefix (`digits [. digits?]` or `. digits`, optional well-formed
exponent); `none` models `NaN` (no parsable prefix).  The string `Infinity`
is not modelled: the engine only applies `parseFloat` to strings matching
`[0-9][0-9.]*` (the tokenizer's number scan). -/
def jsParseFloat (s : String) : Option ℚ :=
  let cs := s.data.dropWhile jsIsWhitespace
  let signAndRest : ℚ × List Char :=
    match cs with
    | '-' :: r => (-1, r)
    | '+' :: r => (1, r)
    | r => (1, r)
  let sign := signAndRest.1
  let cs1 := signAndRest.2
  let intPart := cs1.takeWhile jsIsDigit
  let cs2 := cs1.dropWhile jsIsDigit
  let fracAndRest : List Char × List Char :=
    match cs2 with
    | '.' :: r => (r.takeWhile jsIsDigit, r.dropWhile jsIsDigit)
    | r => ([], r)
  let fracPart := fracAndRest.1
  let cs3 := fracAndRest.2
  if intPart = [] ∧ fracPart = [] then none
  else
    let mant : ℚ := (digitsToNat intPart : ℚ) +
      (digitsToNat fracPart : ℚ) / (10 : ℚ) ^ fracPart.length
    let expo : ℤ :=
      match cs3 with
      | e :: r =>
        if e = 'e' ∨ e = 'E' then
          let esignAndRest : ℤ × List Char :=
            match r with
            | '-' :: r2 => (-1, r2)
            | '+' :: r2 => (1, r2)
            | r2 => (1, r2)
          let eds := esignAndRest.2.takeWhile jsIsDigit
          if eds = [] then 0 else esignAndRest.1 * (digitsToNat eds : ℤ)
        else 0
      | [] => 0
    some (sign * mant * (10 : ℚ) ^ expo)

/-- Helper for `jsStrToNumber`: parse an entire character list as a signed
decimal numeric literal (`[+-]? (digits [. digits?] | . digits)
([eE] [+-]? digits)?`); `none` if the whole list is not of this shape. -/
def parseDecFull (cs : List Char) : Option ℚ :=
  let signAndRest : ℚ × List Char :=
    match cs with
    | '-' :: r => (-1, r)
    | '+' :: r => (1, r)
    | r => (1, r)
  let sign := signAndRest.1
  let cs1 := signAndRest.2
  let intPart := cs1.takeWhile jsIsDigit
  let cs2 := cs1.dropWhile jsIsDigit
  let fracAndRest : List Char × List Char :=
    match cs2 with
    | '.' :: r => (r.takeWhile jsIsDigit, r.dropWhile jsIsDigit)
    | r => ([], r)
  let fracPart := fracAndRest.1
  let cs3 := fracAndRest.2
  if intPart = [] ∧ fracPart = [] then none
  else
    let mant : ℚ := sign * ((digitsToNat intPart : ℚ) +
      (digitsToNat fracPart : ℚ) / (10 : ℚ) ^ fracPart.length)
    match cs3 with
    | [] => some mant
    | e :: r =>
      if e = 'e' ∨ e = 'E' then
        let esignAndRest : ℤ × List Char :=
          match r with
          | '-' :: r2 => (-1, r2)
          | '+' :: r2 => (1, r2)
          | r2 => (1, r2)
        let eds := esignAndRest.2.takeWhile jsIsDigit
        let tail := esignAndRest.2.dropWhile jsIsDigit
        if eds = [] ∨ tail ≠ [] then none
        else some (mant * (10 : ℚ) ^ (esignAndRest.1 * (digitsToNat eds : ℤ)))
      else none

/-- Hexadecimal digit test. -/
def jsIsHexDigit (c : Char) : Bool :=
  jsIsDigit c || ('a' ≤ c && c ≤ 'f') || ('A' ≤ c && c ≤ 'F')

/-- Hexadecimal digit value. -/
def hexDigitVal (c : Char) : Nat :=
  if jsIsDigit c then c.toNat - 48
  else if 'a' ≤ c && c ≤ 'f' then c.toNat - 87
  else c.toNat - 55

/-- `Number(string)` coercion: trimmed empty string is `0`; `0x`/`0o`/`0b`
prefixed integer literals; otherwise a full decimal literal; anything else
is `NaN` (`none`).  (`Infinity` is not modelled; it never arises in the
engine's inputs.) -/
def jsStrToNumber (s : String) : Option ℚ :=
  let t := jsTrim s.data
  if t = [] then some 0
  else
    match t with
    | '0' :: x :: rest =>
      if (x = 'x' ∨ x = 'X') ∧ rest ≠ [] ∧ rest.all jsIsHexDigit then
        some ((rest.foldl (fun acc d => 16 * acc + hexDigitVal d) 0 : Nat) : ℚ)
      else if (x = 'o' ∨ x = 'O') ∧ rest ≠ [] ∧ rest.all (fun c => '0' ≤ c && c ≤ '7') then
        some ((rest.foldl (fun acc d => 8 * acc + (d.toNat - 48)) 0 : Nat) : ℚ)
      else if (x = 'b' ∨ x = 'B') ∧ rest ≠ [] ∧ rest.all (fun c => c = '0' ∨ c = '1') then
        some ((rest.foldl (fun acc d => 2 * acc + (d.toNat - 48)) 0 : Nat) : ℚ)
      else parseDecFull t
    | _ => parseDecFull t

/-- Multiplicity worker, structurally recursive on a fuel argument that
bounds `n`; when the fuel is `0` the remaining `n` is `0` as well, so the
`0`-fuel branch returns the exact answer. -/
def factorMultF (p : Nat) : Nat → Nat → Nat
  | 0, _ => 0
  | fuel + 1, n => if 2 ≤ p ∧ 2 ≤ n ∧ n % p = 0 then factorMultF p fuel (n / p) + 1 else 0

/-- Multiplicity of the prime `p` in `n` (used to render terminating
decimals). -/
def factorMult (p n : Nat) : Nat := factorMultF p n n

/-- Decimal rendering of a non-negative rational whose denominator divides a
power of ten (every number the engine ever converts to a string is of this
shape).  Matches `Number.prototype.toString` on such values: shortest exact
decimal, no exponent notation.  The final fallback branch is never produced
by the engine. -/
def qToStringNonneg (q : ℚ) : String :=
  let den := q.den
  let a := factorMult 2 den
  let b := factorMult 5 den
  if den = 2 ^ a * 5 ^ b then
    let k := max a b
    let m := (q * (10 : ℚ) ^ k).num.toNat
    if k = 0 then toString m
    else
      let s0 := toString m
      let s1 := (List.replicate (k + 1 - s0.length) '0').asString ++ s0
      let i := s1.length - k
      (s1.data.take i).asString ++ "." ++ (s1.data.drop i).asString
  else toString q.num ++ "/" ++ toString q.den

/-- `Number.prototype.toString` on the rational model. -/
def qToString (q : ℚ) : String :=
  if q < 0 then "-" ++ qToStringNonneg (-q) else qToStringNonneg q

/-! ## JavaScript values (the `DecisionContext` data) -/

/-- JSON-like JavaScript runtime values, as occur in a `DecisionContext`
(an arbitrary nested key/value tree) and during evaluation. -/
inductive JSVal where
  | undef
  | bool (b : Bool)
  | num (q : ℚ)
  | str (s : String)
  | obj (fields : List (String × JSVal))
  | arr (elems : List JSVal)
deriving Repr

mutual
def JSVal.beq : JSVal → JSVal → Bool
  | .undef, .undef => true
  | .bool a, .bool b => a = b
  | .num a, .num b => a = b
  | .str a, .str b => a = b
  | .obj a, .obj b => JSVal.beqFields a b
  | .arr a, .arr b => JSVal.beqList a b
  | _, _ => false

def JSVal.beqFields : List (String × JSVal) → List (String × JSVal) → Bool
  | [], [] => true
  | (k1, v1) :: t1, (k2, v2) :: t2 => k1 = k2 && JSVal.beq v1 v2 && JSVal.beqFields t1 t2
  | _, _ => false

def JSVal.beqList : List JSVal → List JSVal → Bool
  | [], [] => true
  | v1 :: t1, v2 :: t2 => JSVal.beq v1 v2 && JSVal.beqList t1 t2
  | _, _ => false
end

/-- Truthiness (`Boolean(v)`).  `num` never holds `NaN` in this model. -/
def truthy : JSVal → Bool
  | .undef => false
  | .bool b => b
  | .num q => q ≠ 0
  | .str s => s ≠ ""
  | .obj _ => true
  | .arr _ => true

/-- `a || b`. -/
def jsOr (a b : JSVal) : JSVal := if truthy a then a else b

mutual
/-- `String(v)` conversion. -/
def jsToString : JSVal → String
  | .undef => "undefined"
  | .bool b => if b then "true" else "false"
  | .num q => qToString q
  | .str s => s
  | .obj _ => "[object Object]"
  | .arr l => jsJoinElems l

/-- Array elements joined by `,` (`Array.prototype.toString`); `undefined`
elements render as the empty string. -/
def jsJoinElems : List JSVal → String
  | [] => ""
  | [v] => match v with
    | .undef => ""
    | v' => jsToString v'
  | v :: t => (match v with
    | .undef => ""
    | v' => jsToString v') ++ "," ++ jsJoinElems t
end

/-- `Number(v)` coercion; `none` models `NaN`. Objects and arrays coerce
through their string form, as in JavaScript. -/
def jsToNumber : JSVal → Option ℚ
  | .undef => none
  | .bool b => some (if b then 1 else 0)
  | .num q => some q
  | .str s => jsStrToNumber s
  | .obj f => jsStrToNumber (jsToString (.obj f))
  | .arr l => jsStrToNumber (jsToString (.arr l))

/-- Strict equality `===`.  JavaScript compares objects and arrays by
reference; this model compares them structurally (no verified claim
compares two objects). -/
def strictEq (a b : JSVal) : Bool := JSVal.beq a b

/-- `current && typeof current === 'object'` — the guard in
`Evaluator.getValueFromContext`'s path walk. -/
def isObjectLike : JSVal → Bool
  | .obj _ => true
  | .arr _ => true
  | _ => false

/-- Property access `current[part]` on an object-like value. -/
def rawGet : JSVal → String → JSVal
  | .obj fs, k => ((fs.lookup k).getD .undef)
  | .arr l, k =>
    if k = "length" then .num l.length
    else match k.toNat? with
      | some i => (l.get? i).getD .undef
      | none => .undef
  | _, _ => JSVal.undef

/-- `String.prototype.split` with a one-character separator, on character
lists (`"".split(sep)` is `[""]`, i.e. `[[]]`). -/
def splitOnChar (sep : Char) : List Char → List (List Char)
  | [] => [[]]
  | c :: rest =>
    match splitOnChar sep rest with
    | parts =>
      if c = sep then [] :: parts
      else
        match parts with
        | p :: ps => (c :: p) :: ps
        | [] => [[c]]

/-- `Evaluator.getValueFromContext`: split the path on `.` and walk the
context; any missing key or non-object intermediate yields `undefined`. -/
def getValueFromContext (path : String) (context : JSVal) : JSVal :=
  go ((splitOnChar '.' path.data).map (fun l => String.mk l)) context
where
  go : List String → JSVal → JSVal
    | [], cur => cur
    | p :: ps, cur =>
      if isObjectLike cur then go ps (rawGet cur p) else JSVal.undef

/-! ## Tokenizer -/

/-- Token kinds (`interface Token` in the source; `UNIT` is declared there
but never produced). -/
inductive TokenType where
  | OPERATOR | LOGICAL | VALUE | PATH | UNIT | PAREN
deriving Repr, DecidableEq

/-- A lexed token. -/
structure Token where
  type : TokenType
  value : String
deriving Repr, DecidableEq

/-- `Tokenizer.match(str)`: does the remaining input start with `str`? -/
def matchStr (cs : List Char) (s : String) : Bool :=
  go cs s.data
where
  go : List Char → List Char → Bool
    | _, [] => true
    | [], _ :: _ => false
    | c :: cs', p :: ps => c = p && go cs' ps

/-- The unit-suffix branches of the number scan: `parseFloat(value) * k`
rendered back to a string (`(parseFloat(value) * k).toString()`). -/
def numUnitStr (value : List Char) (k : ℚ) : String :=
  match jsParseFloat (String.mk value) with
  | some q => qToString (q * k)
  | none => "NaN"

theorem dropWhile_length_le {α : Type} (p : α → Bool) (l : List α) :
    (l.dropWhile p).length ≤ l.length := by
  induction l with
  | nil => simp [List.dropWhile]
  | cons c t ih =>
    by_cases h : p c
    · simp [List.dropWhile, h]
      omega
    · simp [List.dropWhile, h]

/-- The `Tokenizer.tokenize` scan loop, one step per source-loop iteration,
on the remaining input characters.  Branches appear in the source's order:
whitespace skip, parentheses, `AND`/`and`, `OR`/`or`, the comparison
operators, `in`, `>`/`<`, quoted strings, numbers with unit suffixes,
dotted identifiers, and a silent skip of any other character. -/
def tokenizeAuxF : Nat → List Char → List Token
  | _, [] => []
  | 0, _ :: _ => []  -- unreachable: the fuel always bounds the remaining length
  | fuel + 1, c :: rest =>
    let cs := c :: rest
    if jsIsWhitespace c then tokenizeAuxF fuel rest
    else if c = '(' ∨ c = ')' then
      ⟨.PAREN, String.mk [c]⟩ :: tokenizeAuxF fuel rest
    else if matchStr cs "AND" ∨ matchStr cs "and" then
      ⟨.LOGICAL, "and"⟩ :: tokenizeAuxF fuel (rest.drop 2)
    else if matchStr cs "OR" ∨ matchStr cs "or" then
      ⟨.LOGICAL, "or"⟩ :: tokenizeAuxF fuel (rest.drop 1)
    else if matchStr cs "==" then ⟨.OPERATOR, "=="⟩ :: tokenizeAuxF fuel (rest.drop 1)
    else if matchStr cs "!=" then ⟨.OPERATOR, "!="⟩ :: tokenizeAuxF fuel (rest.drop 1)
    else if matchStr cs ">=" then ⟨.OPERATOR, ">="⟩ :: tokenizeAuxF fuel (rest.drop 1)
    else if matchStr cs "<=" then ⟨.OPERATOR, "<="⟩ :: tokenizeAuxF fuel (rest.drop 1)
    else if matchStr cs "in" then ⟨.OPERATOR, "in"⟩ :: tokenizeAuxF fuel (rest.drop 1)
    else if c = '>' ∨ c = '<' then
      ⟨.OPERATOR, String.mk [c]⟩ :: tokenizeAuxF fuel rest
    else if c = '"' ∨ c = '\'' then
      let value := rest.takeWhile (fun x => x ≠ c)
      ⟨.VALUE, String.mk value⟩ :: tokenizeAuxF fuel ((rest.dropWhile (fun x => x ≠ c)).drop 1)
    else if jsIsDigit c then
      let value := c :: rest.takeWhile (fun x => jsIsDigit x ∨ x = '.')
      let rest2 := rest.dropWhile (fun x => jsIsDigit x ∨ x = '.')
      if matchStr rest2 "MB" then
        ⟨.VALUE, numUnitStr value (1024 * 1024)⟩ :: tokenizeAuxF fuel (rest2.drop 2)
      else if matchStr rest2 "KB" then
        ⟨.VALUE, numUnitStr value 1024⟩ :: tokenizeAuxF fuel (rest2.drop 2)
      else if matchStr rest2 "min" then
        ⟨.VALUE, numUnitStr value (60 * 1000)⟩ :: tokenizeAuxF fuel (rest2.drop 3)
      else if matchStr rest2 "s" then
        ⟨.VALUE, numUnitStr value 1000⟩ :: tokenizeAuxF fuel (rest2.drop 1)
      else ⟨.VALUE, String.mk value⟩ :: tokenizeAuxF fuel rest2
    else if jsIsAlpha c then
      let value := c :: rest.takeWhile (fun x => jsIsAlphaNum x ∨ x = '_' ∨ x = '.')
      ⟨.PATH, String.mk value⟩ ::
        tokenizeAuxF fuel (rest.dropWhile (fun x => jsIsAlphaNum x ∨ x = '_' ∨ x = '.'))
    else tokenizeAuxF fuel rest

/-- The `Tokenizer.tokenize` scan loop on the remaining characters.  Every
loop step consumes at least one character, so the remaining length is a
valid fuel: the worker's `0`-fuel branch is never taken. -/
def tokenizeAux (cs : List Char) : List Token :=
  tokenizeAuxF cs.length cs

/-- `new Tokenizer(input).tokenize()`: the constructor trims the input. -/
def tokenize (input : String) : List Token :=
  tokenizeAux (jsTrim input.data)

/-! ## AST and Parser -/

/-- `Literal.value : string | number`. -/
inductive LitValue where
  | str (s : String)
  | num (q : ℚ)
deriving Repr, DecidableEq

/-- The AST (`Literal`, `Identifier`, `BinaryOp` in the source). -/
inductive ASTNode where
  | literal (value : LitValue)
  | identifier (name : String)
  | binaryOp (operator : String) (left right : ASTNode)
deriving Repr, DecidableEq

/-- `(node as Identifier).name`: `undefined` (here `none`) unless the node
is an `Identifier`. -/
def nodeName : ASTNode → Option String
  | .identifier n => some n
  | _ => none

/-- `(node as Literal).value`: `undefined` (here `none`) unless the node is
a `Literal`. -/
def nodeLitValue : ASTNode → Option LitValue
  | .literal v => some v
  | _ => none

/-- A parse result paired with the unconsumed tokens; the parser consumed
at least one token. -/
abbrev ParseOut (ts : List Token) := ASTNode × {l : List Token // l.length < ts.length}

/-- As `ParseOut`, but the (loop) parser may consume nothing. -/
abbrev ParseOutLe (ts : List Token) := ASTNode × {l : List Token // l.length ≤ ts.length}

mutual

/-- `Parser.parsePrimary`. -/
def parsePrimaryAux (ts : List Token) : Except String (ParseOut ts) :=
  match ts with
  | [] => .error "Unexpected end of input"
  | token :: rest =>
    if token.type = .PATH then
      .ok (.identifier token.value, ⟨rest, by simp⟩)
    else if token.type = .PAREN ∧ token.value = "(" then do
      let (expr, ⟨rest1, h1⟩) ← parseOrAux rest
      match rest1, h1 with
      | t :: rest2, h1 =>
        if t.value = ")" then
          pure (expr, ⟨rest2, by simp only [List.length_cons] at h1 ⊢; omega⟩)
        else .error "Expected closing parenthesis"
      | [], _ => .error "Expected closing parenthesis"
    else if token.type = .VALUE then
      match jsStrToNumber token.value with
      | some n => .ok (.literal (.num n), ⟨rest, by simp⟩)
      | none => .ok (.literal (.str token.value), ⟨rest, by simp⟩)
    else .error ("Unexpected token: " ++ token.value)
termination_by 4 * ts.length
decreasing_by
  all_goals (try simp_all only [List.length_cons])
  all_goals omega

/-- `Parser.parseComparison`. -/
def parseComparisonAux (ts : List Token) : Except String (ParseOut ts) := do
  let (left, ⟨rest, h⟩) ← parsePrimaryAux ts
  match rest, h with
  | token :: rest1, h =>
    if token.type = .OPERATOR then do
      let (right, ⟨rest2, h2⟩) ← parsePrimaryAux rest1
      pure (.binaryOp token.value left right,
        ⟨rest2, by simp only [List.length_cons] at h ⊢; omega⟩)
    else pure (left, ⟨token :: rest1, h⟩)
  | [], h => pure (left, ⟨[], h⟩)
termination_by 4 * ts.length + 1
decreasing_by
  all_goals (try simp_all only [List.length_cons])
  all_goals omega

/-- The `while` loop of `Parser.parseAnd`. -/
def parseAndLoopAux (left : ASTNode) (ts : List Token) : Except String (ParseOutLe ts) :=
  match ts with
  | token :: rest =>
    if token.type = .LOGICAL ∧ token.value = "and" then do
      let (right, ⟨rest1, h1⟩) ← parseComparisonAux rest
      let (ast, ⟨rest2, h2⟩) ← parseAndLoopAux (.binaryOp "and" left right) rest1
      pure (ast, ⟨rest2, by simp only [List.length_cons]; omega⟩)
    else .ok (left, ⟨token :: rest, le_refl _⟩)
  | [] => .ok (left, ⟨[], le_refl _⟩)
termination_by 4 * ts.length
decreasing_by
  all_goals (try simp_all only [List.length_cons])
  all_goals omega

/-- `Parser.parseAnd`. -/
def parseAndAux (ts : List Token) : Except String (ParseOut ts) := do
  let (left, ⟨rest, h⟩) ← parseComparisonAux ts
  let (ast, ⟨rest1, h1⟩) ← parseAndLoopAux left rest
  pure (ast, ⟨rest1, by omega⟩)
termination_by 4 * ts.length + 2
decreasing_by
  all_goals omega

/-- The `while` loop of `Parser.parseOr`. -/
def parseOrLoopAux (left : ASTNode) (ts : List Token) : Except String (ParseOutLe ts) :=
  match ts with
  | token :: rest =>
    if token.type = .LOGICAL ∧ token.value = "or" then do
      let (right, ⟨rest1, h1⟩) ← parseAndAux rest
      let (ast, ⟨rest2, h2⟩) ← parseOrLoopAux (.binaryOp "or" left right) rest1
      pure (ast, ⟨rest2, by simp only [List.length_cons]; omega⟩)
    else .ok (left, ⟨token :: rest, le_refl _⟩)
  | [] => .ok (left, ⟨[], le_refl _⟩)
termination_by 4 * ts.length
decreasing_by
  all_goals (try simp_all only [List.length_cons])
  all_goals omega

/-- `Parser.parseOr`. -/
def parseOrAux (ts : List Token) : Except String (ParseOut ts) := do
  let (left, ⟨rest, h⟩) ← parseAndAux ts
  let (ast, ⟨rest1, h1⟩) ← parseOrLoopAux left rest
  pure (ast, ⟨rest1, by omega⟩)
termination_by 4 * ts.length + 3
decreasing_by
  all_goals omega

end

/-- `Parser.parse`: parse the leading expression; the final position is
dropped — the parser never checks that the token stream was fully
consumed. -/
def parseTokens (ts : List Token) : Except String ASTNode :=
  (parseOrAux ts).map (fun out => out.1)

/-! ## Evaluator -/

/-- The `TypeError` message thrown by `getValueFromContext(path, ...)` when
`path` is `undefined` (the `path.split('.')` access), as reported by the
V8 runtime. -/
def splitErrMsg : String := "Cannot read properties of undefined (reading 'split')"

/-- Numeric comparison `Number(left) OP Number(right)`: comparisons with
`NaN` (`none`) are false. -/
def jsNumCmp (cmp : ℚ → ℚ → Bool) (a b : JSVal) : Bool :=
  match jsToNumber a, jsToNumber b with
  | some x, some y => cmp x y
  | _, _ => false

/-- `Evaluator.evaluate`.  Note the faithful quirk of the source: for every
`BinaryOp` — including `and`/`or` — both `(binOp.left as Identifier).name`
and `(binOp.right as Identifier).name` are looked up in the context
*before* the operator switch; if either operand is not an `Identifier`,
that name is `undefined` and `getValueFromContext` throws a `TypeError`
from `path.split('.')`. -/
def evalNode (context : JSVal) : ASTNode → Except String Bool
  | .literal v =>
    .ok (truthy (match v with | .str s => .str s | .num q => .num q))
  | .identifier n => .ok (truthy (getValueFromContext n context))
  | .binaryOp op l r => do
    let left ← match nodeName l with
      | some p => pure (getValueFromContext p context)
      | none => .error splitErrMsg
    let rightLookup ← match nodeName r with
      | some p => pure (getValueFromContext p context)
      | none => .error splitErrMsg
    let right := jsOr rightLookup
      (match nodeLitValue r with
        | some (.str s) => .str s
        | some (.num q) => .num q
        | none => .undef)
    match op with
    | "==" => pure (strictEq left right)
    | "!=" => pure (!strictEq left right)
    | ">" => pure (jsNumCmp (fun x y => x > y) left right)
    | "<" => pure (jsNumCmp (fun x y => x < y) left right)
    | ">=" => pure (jsNumCmp (fun x y => x ≥ y) left right)
    | "<=" => pure (jsNumCmp (fun x y => x ≤ y) left right)
    | "in" =>
      match right with
      | .arr elems => pure (elems.any (fun e => strictEq e left))
      | _ => pure false
    | "and" => do
      let a ← evalNode context l
      if a then evalNode context r else pure false
    | "or" => do
      let a ← evalNode context l
      if a then pure true else evalNode context r
    | _ => pure false

/-- The single-rule evaluation pipeline of `DecisionEngine.evaluateRule`:
tokenize, parse, evaluate.  The tokenizer cannot throw; parse and evaluate
can. -/
def evalCondition (condition : String) (context : JSVal) : Except String Bool := do
  let tokens := tokenize condition
  let ast ← parseTokens tokens
  evalNode context ast

/-! ## Rules and index-term extraction -/

/-- A `Rule` record, restricted to the fields the engine reads.
`confidence` is numeric per the shared type (the source's
`typeof rule.confidence === 'string'` branch is for database string
numerics and is degenerate in this model). -/
structure Rule where
  id : String
  name : String
  condition : String
  behavior : String
  category : String
  priority : ℚ
  confidence : ℚ
  active : Bool
deriving Repr, DecidableEq

/-- `interface IndexTerms`. -/
structure IndexTerms where
  actionTypes : List String
  fileExtensions : List String
  filePaths : List String
deriving Repr, DecidableEq

/-- Repeated-`exec` regexp scanning: try the anchored matcher at each
position from the left; on a match emit the capture and continue after the
matched text (every pattern here matches at least one character, matching
JavaScript's `lastIndex` advance). -/
def scanMatchesF {α : Type} (matcher : List Char → Option (α × Nat)) :
    Nat → List Char → List α
  | _, [] => []
  | 0, _ :: _ => []  -- unreachable: the fuel always bounds the remaining length
  | fuel + 1, c :: rest =>
    match matcher (c :: rest) with
    | some (cap, n) => cap :: scanMatchesF matcher fuel ((c :: rest).drop (max 1 n))
    | none => scanMatchesF matcher fuel rest

def scanMatches {α : Type} (matcher : List Char → Option (α × Nat)) (cs : List Char) :
    List α :=
  scanMatchesF matcher cs.length cs

/-- Consume a literal string. -/
def eatLit (p : String) (cs : List Char) : Option (List Char) :=
  if matchStr cs p then some (cs.drop p.length) else none

/-- Consume `\s*`. -/
def eatWs (cs : List Char) : List Char := cs.dropWhile jsIsWhitespace

/-- Consume `\s+`. -/
def eatWs1 (cs : List Char) : Option (List Char) :=
  match cs with
  | c :: rest => if jsIsWhitespace c then some (rest.dropWhile jsIsWhitespace) else none
  | [] => none

/-- Consume one quote character (the regexp class `['"]`; opening and
closing quotes are matched independently, as in the source patterns). -/
def eatQuote (cs : List Char) : Option (List Char) :=
  match cs with
  | c :: rest => if c = '\'' ∨ c = '"' then some rest else none
  | [] => none

/-- Consume `\w+`, returning the captured word. -/
def eatWord1 (cs : List Char) : Option (List Char × List Char) :=
  let w := cs.takeWhile jsIsWordChar
  if w = [] then none else some (w, cs.dropWhile jsIsWordChar)

/-- Anchored matcher for `/action\.type\s*==\s*['"](\w+)['"]/`. -/
def matchActionType (cs : List Char) : Option (String × Nat) := do
  let r1 ← eatLit "action.type" cs
  let r2 := eatWs r1
  let r3 ← eatLit "==" r2
  let r4 := eatWs r3
  let r5 ← eatQuote r4
  let (w, r6) ← eatWord1 r5
  let r7 ← eatQuote r6
  some (String.mk w, cs.length - r7.length)

/-- Anchored matcher for `/file\.extension\s*==\s*['"](\.\w+)['"]/`. -/
def matchExtSingle (cs : List Char) : Option (String × Nat) := do
  let r1 ← eatLit "file.extension" cs
  let r2 := eatWs r1
  let r3 ← eatLit "==" r2
  let r4 := eatWs r3
  let r5 ← eatQuote r4
  let r6 ← eatLit "." r5
  let (w, r7) ← eatWord1 r6
  let r8 ← eatQuote r7
  some (String.mk ('.' :: w), cs.length - r8.length)

/-- Anchored matcher for `/file\.extension\s+in\s+\[(.*?)\]/`: the lazy
capture is everything up to the first `]`, and `.` does not cross line
terminators. -/
def matchExtArray (cs : List Char) : Option (String × Nat) := do
  let r1 ← eatLit "file.extension" cs
  let r2 ← eatWs1 r1
  let r3 ← eatLit "in" r2
  let r4 ← eatWs1 r3
  let r5 ← eatLit "[" r4
  let body := r5.takeWhile (fun c => c ≠ ']')
  match r5.dropWhile (fun c => c ≠ ']') with
  | ']' :: r6 =>
    if body.any (fun c => c = '\n' ∨ c = '\r') then none
    else some (String.mk body, cs.length - r6.length)
  | _ => none

/-- Anchored matcher for `/file\.path\.includes\(['"](\w+)['"]\)/`. -/
def matchPathIncludes (cs : List Char) : Option (String × Nat) := do
  let r1 ← eatLit "file.path.includes(" cs
  let r2 ← eatQuote r1
  let (w, r3) ← eatWord1 r2
  let r4 ← eatQuote r3
  let r5 ← eatLit ")" r4
  some (String.mk w, cs.length - r5.length)

/-- `DecisionEngine.extractIndexTerms`: lightweight textual pattern
extraction over the raw condition string. -/
def extractIndexTerms (condition : String) : IndexTerms :=
  let cs := condition.data
  let actionTypes := scanMatches matchActionType cs
  let extSingle := scanMatches matchExtSingle cs
  let extArray := (scanMatches matchExtArray cs).flatMap (fun body =>
    ((body.splitOn ",").map (fun s =>
        String.mk ((jsTrim s.data).filter (fun c => ¬(c = '\'' ∨ c = '"'))))).filter
      (fun s => match s.data with
        | '.' :: _ => true
        | _ => false))
  let filePaths := scanMatches matchPathIncludes cs
  { actionTypes := actionTypes,
    fileExtensions := extSingle ++ extArray,
    filePaths := filePaths }

/-! ## Rule index and engine state -/

/-- `interface RuleIndex`: JavaScript `Map`s are modelled as association
lists in insertion order. -/
structure RuleIndex where
  byActionType : List (String × List Rule)
  byFileExtension : List (String × List Rule)
  byCategory : List (String × List Rule)
  globalRules : List Rule  -- the source field `global` (`global` is reserved in Lean)
deriving Repr, DecidableEq

/-- `interface RuleMetrics`. -/
structure RuleMetrics where
  ruleId : String
  evaluations : Nat
  matchCount : Nat  -- the source field `matches` (`matches` does not parse as a field name)
  executionTimes : List ℚ
  lastUsed : ℚ
deriving Repr, DecidableEq

/-- The mutable fields of a `DecisionEngine` instance. -/
structure EngineState where
  ruleIndex : RuleIndex
  indexDirty : Bool
  cachedRules : List Rule
  metrics : List (String × RuleMetrics)
deriving Repr, DecidableEq

/-- The freshly-reset index (as assigned at the top of `rebuildIndex`). -/
def emptyIndex : RuleIndex :=
  { byActionType := [], byFileExtension := [], byCategory := [], globalRules := [] }

/-- A freshly constructed engine: `indexDirty = true`, empty cache and
metrics. -/
def initialState : EngineState :=
  { ruleIndex := emptyIndex, indexDirty := true, cachedRules := [], metrics := [] }

/-- `if (!map.has(k)) map.set(k, []); map.get(k)!.push(rule)` on the
association-list model of a JavaScript `Map`. -/
def mapPush (m : List (String × List Rule)) (k : String) (r : Rule) :
    List (String × List Rule) :=
  if m.any (fun kv => kv.1 = k) then
    m.map (fun kv => if kv.1 = k then (kv.1, kv.2 ++ [r]) else kv)
  else m ++ [(k, [r])]

/-- The per-rule body of the `rebuildIndex` loop. -/
def indexInsertRule (idx : RuleIndex) (rule : Rule) : RuleIndex :=
  if rule.active = false then idx
  else
    let terms := extractIndexTerms rule.condition
    let hasSpecificTerms := terms.actionTypes ≠ [] ∨ terms.fileExtensions ≠ []
    let idx1 := { idx with
      byActionType := terms.actionTypes.foldl (fun m t => mapPush m t rule) idx.byActionType }
    let idx2 := { idx1 with
      byFileExtension :=
        terms.fileExtensions.foldl (fun m t => mapPush m t rule) idx1.byFileExtension }
    let idx3 :=
      if rule.category ≠ "" then
        { idx2 with byCategory := mapPush idx2.byCategory rule.category rule }
      else idx2
    if hasSpecificTerms then idx3 else { idx3 with globalRules := idx3.globalRules ++ [rule] }

/-- The index built by `rebuildIndex(rules)` (inactive rules are skipped
entirely). -/
def buildIndex (rules : List Rule) : RuleIndex :=
  rules.foldl indexInsertRule emptyIndex

/-- `DecisionEngine.rebuildIndex` (state effect). -/
def rebuildIndex (s : EngineState) (rules : List Rule) : EngineState :=
  { s with ruleIndex := buildIndex rules, cachedRules := rules, indexDirty := false }

/-- `DecisionEngine.invalidateIndex`. -/
def invalidateIndex (s : EngineState) : EngineState :=
  { s with indexDirty := true }

/-- JavaScript `Set.add` on the insertion-ordered list model (objects are
deduplicated; the model compares rules structurally where JavaScript
compares references). -/
def setAdd (l : List Rule) (r : Rule) : List Rule :=
  if r ∈ l then l else l ++ [r]

/-- The candidate computation of `getCandidateRules` over a (clean) index:
rules keyed by `String(context.action.type)` when `context.action?.type`
is truthy, rules keyed by `String(context.file.extension)` when
`context.file?.extension` is truthy, and every `global` rule, deduplicated
in insertion order. -/
def getCandidatesFromIndex (idx : RuleIndex) (context : JSVal) : List Rule :=
  let actionType := getValueFromContext "action.type" context
  let fileExtension := getValueFromContext "file.extension" context
  let byAction :=
    if truthy actionType then (idx.byActionType.lookup (jsToString actionType)).getD []
    else []
  let byExt :=
    if truthy fileExtension then (idx.byFileExtension.lookup (jsToString fileExtension)).getD []
    else []
  (byAction ++ byExt ++ idx.globalRules).foldl setAdd []

/-- `DecisionEngine.getCandidateRules`: lazily rebuilds the index from the
*cached* rule list when the dirty flag is set and the cache is non-empty,
then reads candidates from the index. -/
def getCandidateRules (s : EngineState) (context : JSVal) : List Rule × EngineState :=
  let s1 :=
    if s.indexDirty ∧ s.cachedRules.length > 0 then rebuildIndex s s.cachedRules else s
  (getCandidatesFromIndex s1.ruleIndex context, s1)

/-! ## Metrics -/

/-- The mutation `recordMetrics` applies to a (possibly fresh) metrics
entry: bump `evaluations`, bump `matches` on a positive result, refresh
`lastUsed`, push the duration and evict the oldest sample past 100. -/
def recordEntry (m : RuleMetrics) (executionTime : ℚ) (matched : Bool) (now : ℚ) :
    RuleMetrics :=
  let m1 := { m with evaluations := m.evaluations + 1 }
  let m2 := if matched then { m1 with matchCount := m1.matchCount + 1 } else m1
  let m3 := { m2 with lastUsed := now }
  let times := m3.executionTimes ++ [executionTime]
  { m3 with executionTimes := if times.length > 100 then times.drop 1 else times }

/-- `DecisionEngine.recordMetrics` on the metrics map (`Date.now()` passed
as `now`). -/
def recordMetrics (metrics : List (String × RuleMetrics)) (ruleId : String)
    (executionTime : ℚ) (matched : Bool) (now : ℚ) : List (String × RuleMetrics) :=
  if metrics.any (fun kv => kv.1 = ruleId) then
    metrics.map (fun kv =>
      if kv.1 = ruleId then (kv.1, recordEntry kv.2 executionTime matched now) else kv)
  else
    metrics ++ [(ruleId,
      recordEntry ⟨ruleId, 0, 0, [], now⟩ executionTime matched now)]

/-- `DecisionEngine.getRuleMetrics` (`null` becomes `none`). -/
def getRuleMetrics (s : EngineState) (ruleId : String) : Option RuleMetrics :=
  s.metrics.lookup ruleId

/-- The record returned by `getSystemMetrics`. -/
structure SystemMetrics where
  totalRules : Nat
  totalEvaluations : Nat
  totalMatches : Nat
  avgMatchRate : ℚ
  avgExecutionTime : ℚ
  p50ExecutionTime : ℚ
  p95ExecutionTime : ℚ
  p99ExecutionTime : ℚ
deriving Repr, DecidableEq

/-- `DecisionEngine.getSystemMetrics`.  JavaScript's `sort((a, b) => a - b)`
sorts ascending; over a linear order any correct sort produces the same
list, modelled here with insertion sort.  The percentile read
`sortedTimes[index] || 0` collapses to `getD index 0` (the only falsy
rational is `0` itself).  JavaScript divisions `0/0` (empty pools) yield
`NaN` where rational division yields `0`; no verified claim depends on
those fields on such states.  `Math.floor(length * p)` is computed on
binary doubles in JavaScript and exactly here; the percentile-ordering
property is insensitive to that rounding. -/
def getSystemMetrics (s : EngineState) : SystemMetrics :=
  let allMetrics := s.metrics.map (fun kv => kv.2)
  if allMetrics.length = 0 then
    { totalRules := 0, totalEvaluations := 0, totalMatches := 0, avgMatchRate := 0,
      avgExecutionTime := 0, p50ExecutionTime := 0, p95ExecutionTime := 0,
      p99ExecutionTime := 0 }
  else
    let totalEvaluations := (allMetrics.map (fun m => m.evaluations)).sum
    let totalMatches := (allMetrics.map (fun m => m.matchCount)).sum
    let allTimes := allMetrics.flatMap (fun m => m.executionTimes)
    let sortedTimes := allTimes.insertionSort (fun a b => a ≤ b)
    let percentile := fun (p : ℚ) =>
      sortedTimes.getD (((sortedTimes.length : ℚ) * p).floor).toNat 0
    { totalRules := allMetrics.length,
      totalEvaluations := totalEvaluations,
      totalMatches := totalMatches,
      avgMatchRate := (totalMatches : ℚ) / (totalEvaluations : ℚ),
      avgExecutionTime := allTimes.sum / (allTimes.length : ℚ),
      p50ExecutionTime := percentile (50 / 100),
      p95ExecutionTime := percentile (95 / 100),
      p99ExecutionTime := percentile (99 / 100) }

/-- `DecisionEngine.clearOldMetrics(maxAge)` with `Date.now()` passed as
`now`. -/
def clearOldMetrics (s : EngineState) (maxAge now : ℚ) : EngineState :=
  { s with metrics := s.metrics.filter (fun kv => ¬(now - kv.2.lastUsed > maxAge)) }

/-! ## The public evaluation API -/

/-- `interface DecisionResult` (the `new Date()` timestamp is modelled by
the `Date.now()` millisecond reading). -/
structure DecisionResult where
  ruleId : String
  ruleName : String
  matched : Bool
  confidence : ℚ
  behavior : String
  reasoning : String
  timestamp : ℚ
  executionTime : ℚ
deriving Repr, DecidableEq

/-- `DecisionEngine.evaluateRule`: the tokenize→parse→evaluate pipeline,
with every thrown error caught and converted to a non-matching result.
Metrics are recorded only on the success path — the `catch` branch of the
source returns without calling `recordMetrics`.  The elapsed
`performance.now()` difference is passed as `executionTime`, `Date.now()`
as `now`.  On success, `confidence` is `rule.confidence` (numeric; `|| 0`
is the identity since `0 || 0` is `0`). -/
def evaluateRule (s : EngineState) (rule : Rule) (context : JSVal)
    (executionTime now : ℚ) : DecisionResult × EngineState :=
  match evalCondition rule.condition context with
  | .ok matched =>
    ({ ruleId := rule.id, ruleName := rule.name, matched := matched,
       confidence := rule.confidence, behavior := rule.behavior,
       reasoning := "Regla evaluada: " ++ rule.name ++ ". Condición: " ++
         rule.condition ++ ". Resultado: " ++
         (if matched then "COINCIDE" else "NO COINCIDE"),
       timestamp := now, executionTime := executionTime },
     { s with metrics := recordMetrics s.metrics rule.id executionTime matched now })
  | .error e =>
    ({ ruleId := rule.id, ruleName := rule.name, matched := false,
       confidence := 0, behavior := rule.behavior,
       reasoning := "Error al evaluar regla: " ++ e,
       timestamp := now, executionTime := executionTime }, s)

/-- `Number.prototype.toFixed(1)`: round to the nearest tenth, ties to the
larger value. -/
def qToFixed1 (q : ℚ) : String :=
  let n : ℤ := (q * 10 + 1 / 2).floor
  let sign := if n < 0 then "-" else ""
  let a := n.natAbs
  sign ++ toString (a / 10) ++ "." ++ toString (a % 10)

/-- The `stats` record of `evaluateRules`. -/
structure EvalStats where
  totalRules : Nat
  activeRules : Nat
  candidateRules : Nat
  matchedRules : Nat
  evaluationTime : ℚ
  indexEfficiency : String
  topMatches : List DecisionResult
deriving Repr, DecidableEq

/-- The value returned by `evaluateRules`. -/
structure BulkResult where
  results : List DecisionResult
  stats : EvalStats
deriving Repr, DecidableEq

/-- `DecisionEngine.evaluateRules`: fetch candidates (with the lazy
cached-rules rebuild), filter to active, evaluate each in order (threading
the metrics state), keep matches, sort descending by confidence.  Each
per-rule timer reading is modelled by the single parameter
`ruleExecutionTime` and the outer timer by `evaluationTime`; with an empty
`rules` argument, JavaScript's `candidates/0` division yields `NaN`
(rendered `NaN%`) where the rational model yields `0`. -/
def evaluateRules (s : EngineState) (rules : List Rule) (context : JSVal)
    (ruleExecutionTime now evaluationTime : ℚ) : BulkResult × EngineState :=
  let candState := getCandidateRules s context
  let candidates := candState.1
  let s1 := candState.2
  let folded := (candidates.filter (fun r => r.active)).foldl
    (fun (acc : List DecisionResult × EngineState) r =>
      let out := evaluateRule acc.2 r context ruleExecutionTime now
      (acc.1 ++ [out.1], out.2))
    ([], s1)
  let results := (folded.1.filter (fun r => r.matched)).insertionSort
    (fun a b => b.confidence ≤ a.confidence)
  ({ results := results,
     stats := {
       totalRules := rules.length,
       activeRules := (rules.filter (fun r => r.active)).length,
       candidateRules := candidates.length,
       matchedRules := results.length,
       evaluationTime := evaluationTime,
       indexEfficiency :=
         qToFixed1 ((1 - (candidates.length : ℚ) / (rules.length : ℚ)) * 100) ++ "%",
       topMatches := results.take 5 } },
   folded.2)

/-- The value returned by `validateCondition`. -/
structure ValidationResult where
  valid : Bool
  error : Option String
deriving Repr, DecidableEq

/-- `DecisionEngine.validateCondition`: tokenize and parse only. -/
def validateCondition (condition : String) : ValidationResult :=
  match parseTokens (tokenize condition) with
  | .ok _ => { valid := true, error := none }
  | .error e => { valid := false, error := some e }

/-! ## General helper lemmas -/

theorem takeWhile_of_all {α : Type} (p : α → Bool) (l : List α) (h : l.all p = true) :
    l.takeWhile p = l := by
  induction l with
  | nil => rfl
  | cons a t ih =>
    simp only [List.all_cons, Bool.and_eq_true] at h
    simp [List.takeWhile_cons, h.1, ih h.2]

theorem dropWhile_of_all {α : Type} (p : α → Bool) (l : List α) (h : l.all p = true) :
    l.dropWhile p = [] := by
  induction l with
  | nil => rfl
  | cons a t ih =>
    simp only [List.all_cons, Bool.and_eq_true] at h
    simp [List.dropWhile_cons, h.1, ih h.2]

/-- One-step unfolding of `tokenizeAuxF` on a successor fuel and a
non-empty input (definitional; stated because the generated equation
lemmas for the large match are impractical). -/
theorem tokenizeAuxF_succ (fuel : Nat) (c : Char) (rest : List Char) :
    tokenizeAuxF (fuel + 1) (c :: rest) =
      (if jsIsWhitespace c then tokenizeAuxF fuel rest
      else if c = '(' ∨ c = ')' then
        ⟨.PAREN, String.mk [c]⟩ :: tokenizeAuxF fuel rest
      else if matchStr (c :: rest) "AND" ∨ matchStr (c :: rest) "and" then
        ⟨.LOGICAL, "and"⟩ :: tokenizeAuxF fuel (rest.drop 2)
      else if matchStr (c :: rest) "OR" ∨ matchStr (c :: rest) "or" then
        ⟨.LOGICAL, "or"⟩ :: tokenizeAuxF fuel (rest.drop 1)
      else if matchStr (c :: rest) "==" then ⟨.OPERATOR, "=="⟩ :: tokenizeAuxF fuel (rest.drop 1)
      else if matchStr (c :: rest) "!=" then ⟨.OPERATOR, "!="⟩ :: tokenizeAuxF fuel (rest.drop 1)
      else if matchStr (c :: rest) ">=" then ⟨.OPERATOR, ">="⟩ :: tokenizeAuxF fuel (rest.drop 1)
      else if matchStr (c :: rest) "<=" then ⟨.OPERATOR, "<="⟩ :: tokenizeAuxF fuel (rest.drop 1)
      else if matchStr (c :: rest) "in" then ⟨.OPERATOR, "in"⟩ :: tokenizeAuxF fuel (rest.drop 1)
      else if c = '>' ∨ c = '<' then
        ⟨.OPERATOR, String.mk [c]⟩ :: tokenizeAuxF fuel rest
      else if c = '"' ∨ c = '\'' then
        ⟨.VALUE, String.mk (rest.takeWhile (fun x => x ≠ c))⟩ ::
          tokenizeAuxF fuel ((rest.dropWhile (fun x => x ≠ c)).drop 1)
      else if jsIsDigit c then
        (if matchStr (rest.dropWhile (fun x => jsIsDigit x ∨ x = '.')) "MB" then
          ⟨.VALUE, numUnitStr (c :: rest.takeWhile (fun x => jsIsDigit x ∨ x = '.')) (1024 * 1024)⟩ ::
            tokenizeAuxF fuel ((rest.dropWhile (fun x => jsIsDigit x ∨ x = '.')).drop 2)
        else if matchStr (rest.dropWhile (fun x => jsIsDigit x ∨ x = '.')) "KB" then
          ⟨.VALUE, numUnitStr (c :: rest.takeWhile (fun x => jsIsDigit x ∨ x = '.')) 1024⟩ ::
            tokenizeAuxF fuel ((rest.dropWhile (fun x => jsIsDigit x ∨ x = '.')).drop 2)
        else if matchStr (rest.dropWhile (fun x => jsIsDigit x ∨ x = '.')) "min" then
          ⟨.VALUE, numUnitStr (c :: rest.takeWhile (fun x => jsIsDigit x ∨ x = '.')) (60 * 1000)⟩ ::
            tokenizeAuxF fuel ((rest.dropWhile (fun x => jsIsDigit x ∨ x = '.')).drop 3)
        else if matchStr (rest.dropWhile (fun x => jsIsDigit x ∨ x = '.')) "s" then
          ⟨.VALUE, numUnitStr (c :: rest.takeWhile (fun x => jsIsDigit x ∨ x = '.')) 1000⟩ ::
            tokenizeAuxF fuel ((rest.dropWhile (fun x => jsIsDigit x ∨ x = '.')).drop 1)
        else ⟨.VALUE, String.mk (c :: rest.takeWhile (fun x => jsIsDigit x ∨ x = '.'))⟩ ::
          tokenizeAuxF fuel (rest.dropWhile (fun x => jsIsDigit x ∨ x = '.')))
      else if jsIsAlpha c then
        ⟨.PATH, String.mk (c :: rest.takeWhile (fun x => jsIsAlphaNum x ∨ x = '_' ∨ x = '.'))⟩ ::
          tokenizeAuxF fuel (rest.dropWhile (fun x => jsIsAlphaNum x ∨ x = '_' ∨ x = '.'))
      else tokenizeAuxF fuel rest) := rfl

theorem tokenizeAuxF_nil (fuel : Nat) : tokenizeAuxF fuel [] = [] := by
  cases fuel <;> rfl

theorem tokenizeAuxF_fuel_congr : ∀ (n m : Nat) (cs : List Char),
    cs.length ≤ n → cs.length ≤ m → tokenizeAuxF n cs = tokenizeAuxF m cs := by
  intro n
  induction n using Nat.strong_induction_on with
  | _ n ih =>
    intro m cs hn hm
    match cs with
    | [] =>
      cases n <;> cases m <;> rfl
    | c :: rest =>
      match n, m, hn, hm with
      | 0, _, hn, _ => simp at hn
      | _ + 1, 0, _, hm => simp at hm
      | n' + 1, m' + 1, hn, hm =>
        simp only [List.length_cons] at hn hm
        have hrec : ∀ X : List Char, X.length ≤ rest.length →
            tokenizeAuxF n' X = tokenizeAuxF m' X :=
          fun X hX => ih n' (by omega) m' X (by omega) (by omega)
        rw [tokenizeAuxF_succ n' c rest, tokenizeAuxF_succ m' c rest]
        repeat'
          first
          | exact hrec _ (le_refl _)
          | exact congrArg _ (hrec _ (le_refl _))
          | exact congrArg _ (hrec _ (by simp only [List.length_drop]; omega))
          | exact congrArg _ (hrec _ (dropWhile_length_le _ _))
          | exact congrArg _ (hrec _ (le_trans
              (by simp only [List.length_drop]; exact Nat.sub_le _ _)
              (dropWhile_length_le _ _)))
          | refine ite_congr rfl (fun h => ?_) (fun h => ?_)

theorem jsIsDigit_ne_of_not (d c : Char) (h : jsIsDigit d = true)
    (hc : jsIsDigit c = false) : ¬d = c := by
  intro he
  rw [he, hc] at h
  exact Bool.false_ne_true h

/-! ## Concrete rules and contexts used by the verification -/

/-- Scenario A/B rule of the specification. -/
def scenarioRule : Rule :=
  { id := "r-scenario", name := "scenario", behavior := "log", category := "safety",
    condition := "action.type == 'delete' or file.size > 1048576",
    priority := 50, confidence := 4 / 5, active := true }

/-- Scenario A context `{action: {type: 'delete'}}`. -/
def scenarioCtxA : JSVal := .obj [("action", .obj [("type", .str "delete")])]

/-- Scenario B context `{action: {type: 'noop'}, file: {size: 2000000}}`. -/
def scenarioCtxB : JSVal :=
  .obj [("action", .obj [("type", .str "noop")]), ("file", .obj [("size", .num 2000000)])]

/-- A rule whose condition `x action.type == 'delete'` has trailing tokens
after the leading expression `x`; the parser keeps only `x`, yet the index
extraction recognises `action.type == 'delete'` in the raw text. -/
def trailingRule : Rule :=
  { id := "r-trailing", name := "trailing", behavior := "log", category := "safety",
    condition := "x action.type == 'delete'",
    priority := 50, confidence := 4 / 5, active := true }

/-- A context on which `trailingRule` matches (`x` is truthy) but whose
`action.type` differs from the extracted index term. -/
def trailingCtx : JSVal :=
  .obj [("x", .num 1), ("action", .obj [("type", .str "noop")])]

/-- An active rule whose condition `x` has no recognisable index terms. -/
def globalRule : Rule :=
  { id := "r-global", name := "global", behavior := "log", category := "safety",
    condition := "x", priority := 50, confidence := 4 / 5, active := true }

/-- A context on which `globalRule` matches. -/
def globalCtx : JSVal := .obj [("x", .num 1)]

/-- A rule whose condition is empty, so that parsing throws
`Unexpected end of input`. -/
def emptyCondRule : Rule :=
  { id := "r-empty", name := "empty", behavior := "log", category := "safety",
    condition := "", priority := 50, confidence := 4 / 5, active := true }

/-! ## C2 -/

/-- C2 (code bug evidence): on Scenario A — rule condition
`action.type == 'delete' or file.size > 1048576` and context
`{action: {type: 'delete'}}` — `evaluateRule` returns `matched = false`,
not `true` as the claim states: the evaluator reads
`(binOp.left as Identifier).name` and `(binOp.right as Identifier).name`
for every `BinaryOp` before the operator switch, so the nested comparison
operands of the `or` (and every literal comparand) produce `undefined`,
and `getValueFromContext(undefined, ...)` throws a `TypeError` at
`path.split('.')`, which the `catch` block converts into a non-matching
result.  The same defect makes the repository's own vitest case
(`evaluateRule` on `x > 5` with `{x: 10}` expecting `matched = true`)
fail. -/
theorem c2_scenarioA_matched_false :
    (evaluateRule initialState scenarioRule scenarioCtxA 0 0).1.matched = false ∧
    (evaluateRule initialState scenarioRule scenarioCtxA 0 0).1.reasoning =
      "Error al evaluar regla: Cannot read properties of undefined (reading 'split')" := by
  have ht : tokenize "action.type == 'delete' or file.size > 1048576" =
      [⟨.PATH, "action.type"⟩, ⟨.OPERATOR, "=="⟩, ⟨.VALUE, "delete"⟩, ⟨.LOGICAL, "or"⟩,
       ⟨.PATH, "file.size"⟩, ⟨.OPERATOR, ">"⟩, ⟨.VALUE, "1048576"⟩] := rfl
  have hn1 : jsStrToNumber "delete" = none := rfl
  have hn2 : jsStrToNumber "1048576" = some 1048576 := by
    simp [jsStrToNumber, parseDecFull, jsTrim, jsIsWhitespace, jsIsDigit, digitsToNat,
      jsIsHexDigit, hexDigitVal]
  have hp : parseTokens
      [⟨.PATH, "action.type"⟩, ⟨.OPERATOR, "=="⟩, ⟨.VALUE, "delete"⟩, ⟨.LOGICAL, "or"⟩,
       ⟨.PATH, "file.size"⟩, ⟨.OPERATOR, ">"⟩, ⟨.VALUE, "1048576"⟩] =
      .ok (.binaryOp "or"
        (.binaryOp "==" (.identifier "action.type") (.literal (.str "delete")))
        (.binaryOp ">" (.identifier "file.size") (.literal (.num 1048576)))) := by
    simp [parseTokens, parseOrAux, parseAndAux, parseComparisonAux, parsePrimaryAux,
      parseAndLoopAux, parseOrLoopAux, Bind.bind, Except.bind, Pure.pure, Except.pure,
      Functor.map, Except.map, hn1, hn2]
  have he : evalNode scenarioCtxA
      (.binaryOp "or"
        (.binaryOp "==" (.identifier "action.type") (.literal (.str "delete")))
        (.binaryOp ">" (.identifier "file.size") (.literal (.num 1048576)))) =
      .error splitErrMsg := rfl
  constructor
  all_goals
    simp [evaluateRule, evalCondition, scenarioRule, ht, hp, he, splitErrMsg,
      Bind.bind, Except.bind]

/-! ## C6 -/

/-- C6 (counterexample): the claim says `and`/`or` are recognised
case-insensitively, so `And` should lex as a `LOGICAL` token; in fact the
tokenizer only matches the exact spellings `AND`, `and`, `OR`, `or`, and
`And` is lexed as a `PATH` identifier token. -/
theorem c6_mixed_case_is_path :
    tokenize "And" = [⟨TokenType.PATH, "And"⟩] ∧
    TokenType.PATH ≠ TokenType.LOGICAL := by
  constructor
  · rfl
  · intro h
    exact TokenType.noConfusion h

/-- C6 (amended): the tokenizer recognises exactly the spellings `and`,
`AND` (as `LOGICAL and`) and `or`, `OR` (as `LOGICAL or`), each regardless
of what follows; mixed-case spellings such as `And`, `aNd`, `Or`, `oR` are
lexed as `PATH` identifier tokens. -/
theorem c6_amended_exact_casings :
    (∀ rest : List Char,
      tokenizeAux ('a' :: 'n' :: 'd' :: rest) = ⟨TokenType.LOGICAL, "and"⟩ :: tokenizeAux rest) ∧
    (∀ rest : List Char,
      tokenizeAux ('A' :: 'N' :: 'D' :: rest) = ⟨TokenType.LOGICAL, "and"⟩ :: tokenizeAux rest) ∧
    (∀ rest : List Char,
      tokenizeAux ('o' :: 'r' :: rest) = ⟨TokenType.LOGICAL, "or"⟩ :: tokenizeAux rest) ∧
    (∀ rest : List Char,
      tokenizeAux ('O' :: 'R' :: rest) = ⟨TokenType.LOGICAL, "or"⟩ :: tokenizeAux rest) ∧
    tokenize "And" = [⟨TokenType.PATH, "And"⟩] ∧
    tokenize "aNd" = [⟨TokenType.PATH, "aNd"⟩] ∧
    tokenize "Or" = [⟨TokenType.PATH, "Or"⟩] ∧
    tokenize "oR" = [⟨TokenType.PATH, "oR"⟩] := by
  refine ⟨fun rest => ?_, fun rest => ?_, fun rest => ?_, fun rest => ?_, rfl, rfl, rfl, rfl⟩
  all_goals
    simp only [tokenizeAux, List.length_cons]
    rw [tokenizeAuxF_succ]
    simp [jsIsWhitespace, matchStr, matchStr.go]
    exact tokenizeAuxF_fuel_congr _ _ _ (by omega) (le_refl _)

/-! ## C9 -/

/-- C9 (counterexample): the claim says the `VALUE` token of an
unterminated quoted string is the *entire remainder of the input* after
the opening quote; but the tokenizer trims the raw input first, so for the
input `'a ` (unterminated quote, trailing space) the produced token text
is `a`, not the remainder `a `. -/
theorem c9_trailing_space_trimmed :
    tokenize "'a " = [⟨TokenType.VALUE, "a"⟩] ∧ ("a" : String) ≠ "a " := by
  constructor
  · rfl
  · decide

/-- C9 (amended): whenever the scan reaches an opening single or double
quote whose matching closing quote is absent from the remaining input, it
consumes the entire remaining input silently — no error is raised — and
emits a single `VALUE` token holding exactly those remaining characters;
the remainder is measured after the tokenizer's initial `trim` of the raw
input (illustrated by the final conjunct). -/
theorem c9_amended_unterminated_quote :
    (∀ (q : Char) (rest : List Char), (q = '"' ∨ q = '\'') → q ∉ rest →
      tokenizeAux (q :: rest) = [⟨TokenType.VALUE, String.mk rest⟩]) ∧
    tokenize "'abc" = [⟨TokenType.VALUE, "abc"⟩] := by
  constructor
  · intro q rest hq hmem
    have hall : rest.all (fun x => !decide (x = q)) = true := by
      rw [List.all_eq_true]
      intro x hx
      simp only [Bool.not_eq_true', decide_eq_false_iff_not]
      intro he
      exact hmem (he ▸ hx)
    rcases hq with rfl | rfl
    all_goals
      simp only [tokenizeAux, List.length_cons]
      rw [tokenizeAuxF_succ]
      simp [jsIsWhitespace, matchStr, matchStr.go, tokenizeAuxF_nil,
        takeWhile_of_all _ _ hall, dropWhile_of_all _ _ hall]
  · rfl

/-- C9 witness: a concrete instance of the amended unterminated-quote
behaviour. -/
theorem c9_amended_unterminated_quote_witness :
    tokenizeAux ('\'' :: ['a', 'b']) = [⟨TokenType.VALUE, String.mk ['a', 'b']⟩] :=
  c9_amended_unterminated_quote.1 '\'' ['a', 'b'] (Or.inr rfl) (by decide)

/-! ## C7 -/

/-- C7: tokenizing `5MB` yields the single literal token `5242880`
(`5 * 1024 * 1024`), tokenizing `2min` yields `120000`, and a plain run of
digits (and dots) with no unit suffix passes through unchanged as a
`VALUE` token holding the source text. -/
theorem c7_unit_conversion :
    tokenize "5MB" = [⟨TokenType.VALUE, "5242880"⟩] ∧
    tokenize "2min" = [⟨TokenType.VALUE, "120000"⟩] ∧
    (∀ (d : Char) (rest : List Char), jsIsDigit d = true →
      rest.all (fun x => jsIsDigit x || decide (x = '.')) = true →
      tokenizeAux (d :: rest) = [⟨TokenType.VALUE, String.mk (d :: rest)⟩]) := by
  have h5 : jsParseFloat (String.mk ['5']) = some 5 := by
    show jsParseFloat "5" = some 5
    simp [jsParseFloat, jsIsWhitespace, jsIsDigit, digitsToNat]
  have h2 : jsParseFloat (String.mk ['2']) = some 2 := by
    show jsParseFloat "2" = some 2
    simp [jsParseFloat, jsIsWhitespace, jsIsDigit, digitsToNat]
  refine ⟨?_, ?_, ?_⟩
  · have hts : tokenize "5MB" = [⟨TokenType.VALUE, numUnitStr ['5'] (1024 * 1024)⟩] := rfl
    have hub : numUnitStr ['5'] (1024 * 1024) = "5242880" := by
      simp only [numUnitStr, h5]
      have hm : (5 : ℚ) * (1024 * 1024) = 5242880 := by norm_num
      rw [hm]
      simp [qToString, qToStringNonneg, factorMult, factorMultF]
      norm_num
      rfl
    rw [hts, hub]
  · have hts : tokenize "2min" = [⟨TokenType.VALUE, numUnitStr ['2'] (60 * 1000)⟩] := rfl
    have hub : numUnitStr ['2'] (60 * 1000) = "120000" := by
      simp only [numUnitStr, h2]
      have hm : (2 : ℚ) * (60 * 1000) = 120000 := by norm_num
      rw [hm]
      simp [qToString, qToStringNonneg, factorMult, factorMultF]
      norm_num
      rfl
    rw [hts, hub]
  intro d rest hd hall
  have hne : ∀ c : Char, jsIsDigit c = false → ¬d = c :=
    fun c hc => jsIsDigit_ne_of_not d c hd hc
  simp only [tokenizeAux, List.length_cons]
  rw [tokenizeAuxF_succ]
  simp [jsIsWhitespace, matchStr, matchStr.go, hd, tokenizeAuxF_nil,
    takeWhile_of_all _ _ hall, dropWhile_of_all _ _ hall,
    hne ' ' (by decide), hne '\t' (by decide), hne '\n' (by decide), hne '\r' (by decide),
    hne '\x0b' (by decide), hne '\x0c' (by decide), hne '\u00A0' (by decide),
    hne '(' (by decide), hne ')' (by decide), hne 'A' (by decide), hne 'a' (by decide),
    hne 'O' (by decide), hne 'o' (by decide), hne '=' (by decide), hne '!' (by decide),
    hne '>' (by decide), hne '<' (by decide), hne 'i' (by decide), hne '"' (by decide),
    hne '\'' (by decide)]

/-- C7 witness: the plain-literal conjunct applied at the one-digit input
`7`. -/
theorem c7_unit_conversion_witness :
    tokenizeAux ['7'] = [⟨TokenType.VALUE, String.mk ['7']⟩] :=
  c7_unit_conversion.2.2 '7' [] (by decide) (by decide)

/-! ## C4 -/

/-- C4: `evaluateRule` never raises: whenever the tokenize→parse→evaluate
pipeline throws (modelled by `evalCondition` returning `.error e`), the
call still returns a `DecisionResult`, with `matched = false` and a
`reasoning` string carrying the error text.  (Totality of the embedded
`evaluateRule` — it is a plain function into `DecisionResult ×
EngineState` — models that the call never raises to its caller.) -/
theorem c4_evaluateRule_catches_errors :
    ∀ (s : EngineState) (r : Rule) (c : JSVal) (t now : ℚ) (e : String),
      evalCondition r.condition c = .error e →
      (evaluateRule s r c t now).1.matched = false ∧
      (evaluateRule s r c t now).1.reasoning = "Error al evaluar regla: " ++ e := by
  intro s r c t now e h
  constructor
  · simp [evaluateRule, h]
  · simp [evaluateRule, h]

/-- C4 witness: the empty condition makes the parser throw
`Unexpected end of input`, and the result is a caught non-match. -/
theorem c4_evaluateRule_catches_errors_witness :
    (evaluateRule initialState emptyCondRule (JSVal.obj []) 0 0).1.matched = false ∧
    (evaluateRule initialState emptyCondRule (JSVal.obj []) 0 0).1.reasoning =
      "Error al evaluar regla: " ++ "Unexpected end of input" := by
  have hp : parseTokens (tokenize "") = Except.error "Unexpected end of input" := by
    have ht : tokenize "" = [] := rfl
    rw [ht]
    simp [parseTokens, parseOrAux, parseAndAux, parseComparisonAux, parsePrimaryAux,
      Bind.bind, Except.bind, Functor.map, Except.map]
  exact c4_evaluateRule_catches_errors initialState emptyCondRule (JSVal.obj []) 0 0
    "Unexpected end of input"
    (by simp [evalCondition, emptyCondRule, hp, Bind.bind, Except.bind])

/-! ## C5 -/

/-- Reading back the entry that `recordMetrics` wrote for `ruleId`. -/
theorem lookup_recordMetrics (metrics : List (String × RuleMetrics)) (ruleId : String)
    (t : ℚ) (matched : Bool) (now : ℚ) :
    (recordMetrics metrics ruleId t matched now).lookup ruleId =
      some (recordEntry ((metrics.lookup ruleId).getD ⟨ruleId, 0, 0, [], now⟩)
        t matched now) := by
  induction metrics with
  | nil => simp [recordMetrics, List.lookup]
  | cons kv rest ih =>
    obtain ⟨k, v⟩ := kv
    by_cases hk : k = ruleId
    · subst hk
      simp [recordMetrics, List.lookup, List.any_cons]
    · have hb : (ruleId == k) = false := by
        simp
        exact fun he => hk he.symm
      have hcons : recordMetrics ((k, v) :: rest) ruleId t matched now =
          (k, v) :: recordMetrics rest ruleId t matched now := by
        by_cases ha : (rest.any fun kv => decide (kv.1 = ruleId)) = true
        · simp [recordMetrics, hk, ha]
        · simp [recordMetrics, hk, ha]
      rw [hcons]
      simp only [List.lookup, hb]
      rw [ih]

/-- The sample pushed by `recordMetrics` is the last retained one, whether
or not the 100-sample ring evicted an old entry. -/
theorem getLast_ring_push (l : List ℚ) (t : ℚ) :
    (if 100 < (l ++ [t]).length then (l ++ [t]).tail else l ++ [t]).getLast? = some t := by
  split
  · cases l with
    | nil => simp_all
    | cons a l' => simp [List.getLast?_concat]
  · exact List.getLast?_concat l

/-- The sample pushed by `recordMetrics` is the last retained one, whether
or not the 100-sample ring evicted an old entry. -/
theorem recordEntry_getLast (m : RuleMetrics) (t : ℚ) (matched : Bool) (now : ℚ) :
    (recordEntry m t matched now).executionTimes.getLast? = some t := by
  have hx : (recordEntry m t matched now).executionTimes =
      if 100 < (m.executionTimes ++ [t]).length then (m.executionTimes ++ [t]).tail
      else m.executionTimes ++ [t] := by
    unfold recordEntry
    cases matched <;> simp
  rw [hx]
  exact getLast_ring_push _ _

/-- C5 (counterexample): the claim says every `evaluateRule` call records
metrics even when an exception is caught; evaluating the empty-condition
rule (whose parse throws) on a fresh engine leaves the state — and in
particular the metrics map — completely unchanged: no entry is created
and no evaluation is counted. -/
theorem c5_failure_records_nothing :
    (evaluateRule initialState emptyCondRule globalCtx 2 7).2 = initialState ∧
    getRuleMetrics (evaluateRule initialState emptyCondRule globalCtx 2 7).2 "r-empty" =
      none := by
  have hp : parseTokens (tokenize "") = Except.error "Unexpected end of input" := by
    have ht : tokenize "" = [] := rfl
    rw [ht]
    simp [parseTokens, parseOrAux, parseAndAux, parseComparisonAux, parsePrimaryAux,
      Bind.bind, Except.bind, Functor.map, Except.map]
  have he : evalCondition emptyCondRule.condition globalCtx =
      Except.error "Unexpected end of input" := by
    simp [evalCondition, emptyCondRule, hp, Bind.bind, Except.bind]
  constructor
  · simp [evaluateRule, he]
  · simp [evaluateRule, he, getRuleMetrics, initialState, List.lookup]

/-- C5 (amended): metrics are recorded only on the success path.  When the
pipeline does not throw, the rule's entry exists afterwards with its
`evaluations` counter incremented by one (from `0` for a fresh rule), its
`lastUsed` refreshed to the current clock, and the duration appended as
the newest retained sample; when an exception is caught, the engine state
— metrics included — is unchanged. -/
theorem c5_amended_metrics_only_on_success :
    ∀ (s : EngineState) (r : Rule) (c : JSVal) (t now : ℚ),
      match evalCondition r.condition c with
      | .ok _ =>
        ∃ entry : RuleMetrics,
          getRuleMetrics (evaluateRule s r c t now).2 r.id = some entry ∧
          entry.evaluations =
            (match getRuleMetrics s r.id with
             | some m0 => m0.evaluations
             | none => 0) + 1 ∧
          entry.lastUsed = now ∧
          entry.executionTimes.getLast? = some t
      | .error _ => (evaluateRule s r c t now).2 = s := by
  intro s r c t now
  cases h : evalCondition r.condition c with
  | ok b =>
    simp only [h]
    refine ⟨recordEntry ((s.metrics.lookup r.id).getD ⟨r.id, 0, 0, [], now⟩) t b now,
      ?_, ?_, ?_, ?_⟩
    · simp [evaluateRule, h, getRuleMetrics, lookup_recordMetrics]
    · cases hm : s.metrics.lookup r.id <;> cases b <;>
        simp [recordEntry, getRuleMetrics, hm]
    · simp [recordEntry]
    · exact recordEntry_getLast _ t b now
  | error e => simp [evaluateRule, h]

/-! ## C1 -/

theorem mem_setAdd_of_mem {l : List Rule} {r x : Rule} (h : x ∈ l) : x ∈ setAdd l r := by
  unfold setAdd
  split
  · exact h
  · exact List.mem_append_left _ h

theorem self_mem_setAdd (l : List Rule) (r : Rule) : r ∈ setAdd l r := by
  unfold setAdd
  split
  · assumption
  · exact List.mem_append_right _ (List.mem_singleton_self r)

theorem mem_foldl_setAdd (l : List Rule) (acc : List Rule) (x : Rule)
    (h : x ∈ acc ∨ x ∈ l) : x ∈ l.foldl setAdd acc := by
  induction l generalizing acc with
  | nil =>
    rcases h with h | h
    · exact h
    · cases h
  | cons a t ih =>
    simp only [List.foldl_cons]
    apply ih
    rcases h with h | h
    · exact Or.inl (mem_setAdd_of_mem h)
    · rcases List.mem_cons.mp h with rfl | h'
      · exact Or.inl (self_mem_setAdd acc x)
      · exact Or.inr h'

/-- `indexInsertRule` only ever appends to the `global` bucket. -/
theorem globalRules_indexInsert_mono (idx : RuleIndex) (r' x : Rule)
    (h : x ∈ idx.globalRules) : x ∈ (indexInsertRule idx r').globalRules := by
  unfold indexInsertRule
  split_ifs
  all_goals simp_all only [apply_ite RuleIndex.globalRules]
  all_goals try split_ifs
  all_goals simp_all [List.mem_append]

/-- An active rule with no recognised index terms lands in the `global`
bucket when inserted. -/
theorem globalRules_indexInsert_self (idx : RuleIndex) (r : Rule)
    (hact : r.active = true)
    (hat : (extractIndexTerms r.condition).actionTypes = [])
    (hfe : (extractIndexTerms r.condition).fileExtensions = []) :
    r ∈ (indexInsertRule idx r).globalRules := by
  unfold indexInsertRule
  split_ifs
  all_goals simp_all only [apply_ite RuleIndex.globalRules]
  all_goals try split_ifs
  all_goals simp_all [List.mem_append]

theorem globalRules_foldl_mono (rs : List Rule) (idx : RuleIndex) (x : Rule)
    (h : x ∈ idx.globalRules) : x ∈ (rs.foldl indexInsertRule idx).globalRules := by
  induction rs generalizing idx with
  | nil => exact h
  | cons a t ih => exact ih _ (globalRules_indexInsert_mono _ _ _ h)

/-- Every active member of the rule set with no recognised index terms is
in the built index's `global` bucket. -/
theorem mem_globalRules_buildIndex (r : Rule) (rs : List Rule)
    (hmem : r ∈ rs) (hact : r.active = true)
    (hat : (extractIndexTerms r.condition).actionTypes = [])
    (hfe : (extractIndexTerms r.condition).fileExtensions = []) :
    r ∈ (buildIndex rs).globalRules := by
  unfold buildIndex
  have main : ∀ (l : List Rule) (idx : RuleIndex), r ∈ l →
      r ∈ (l.foldl indexInsertRule idx).globalRules := by
    intro l
    induction l with
    | nil => intro idx h; cases h
    | cons a t ih =>
      intro idx h
      rcases List.mem_cons.mp h with rfl | h'
      · exact globalRules_foldl_mono t _ r (globalRules_indexInsert_self idx r hact hat hfe)
      · exact ih _ h'
  exact main rs emptyIndex hmem

/-- The `global` bucket is unconditionally included in every candidate
set. -/
theorem globalRules_subset_candidates (idx : RuleIndex) (c : JSVal) (x : Rule)
    (h : x ∈ idx.globalRules) : x ∈ getCandidatesFromIndex idx c := by
  unfold getCandidatesFromIndex
  apply mem_foldl_setAdd
  right
  simp [List.mem_append, h]

/-- C1 (counterexample): the claim's candidate soundness fails.  The rule
with condition `x action.type == 'delete'` matches the context
`{x: 1, action: {type: 'noop'}}` (the parser silently keeps only the
leading expression `x`, which is truthy), yet the raw-text index
extraction still finds `action.type == 'delete'`, so the rule is indexed
only under action type `delete` and is not in the candidate set for this
context — the candidate set is empty. -/
theorem c1_matching_rule_not_candidate :
    (evaluateRule initialState trailingRule trailingCtx 0 0).1.matched = true ∧
    trailingRule ∉ (getCandidateRules (rebuildIndex initialState [trailingRule])
      trailingCtx).1 := by
  have ht : tokenize "x action.type == 'delete'" =
      [⟨.PATH, "x"⟩, ⟨.PATH, "action.type"⟩, ⟨.OPERATOR, "=="⟩, ⟨.VALUE, "delete"⟩] := rfl
  have hp : parseTokens
      [⟨.PATH, "x"⟩, ⟨.PATH, "action.type"⟩, ⟨.OPERATOR, "=="⟩, ⟨.VALUE, "delete"⟩] =
      .ok (.identifier "x") := by
    simp [parseTokens, parseOrAux, parseAndAux, parseComparisonAux, parsePrimaryAux,
      parseAndLoopAux, parseOrLoopAux, Bind.bind, Except.bind, Pure.pure, Except.pure,
      Functor.map, Except.map]
  have he : evalNode trailingCtx (.identifier "x") = .ok true := rfl
  constructor
  · simp [evaluateRule, evalCondition, trailingRule, ht, hp, he, Bind.bind, Except.bind]
  · have hcand : (getCandidateRules (rebuildIndex initialState [trailingRule])
        trailingCtx).1 = [] := rfl
    rw [hcand]
    exact List.not_mem_nil _

/-- C1 (amended): candidate soundness holds for rules with no recognised
index terms.  For every active rule `r` in the rule set whose condition
yields no `action.type` or `file.extension` index terms (so `r` falls in
the `global` bucket), if `evaluateRule(r, c)` matches then `r` is among
`getCandidateRules(c)` for the index built by `rebuildIndex` from the
rule set.  (The matched hypothesis is the claim's trigger; membership in
fact holds for every context.) -/
theorem c1_amended_global_soundness :
    ∀ (r : Rule) (rs : List Rule) (c : JSVal) (s : EngineState) (t now : ℚ),
      r ∈ rs → r.active = true →
      (extractIndexTerms r.condition).actionTypes = [] →
      (extractIndexTerms r.condition).fileExtensions = [] →
      (evaluateRule s r c t now).1.matched = true →
      r ∈ (getCandidateRules (rebuildIndex initialState rs) c).1 := by
  intro r rs c s t now hmem hact hat hfe _hmatch
  have h1 : r ∈ (buildIndex rs).globalRules :=
    mem_globalRules_buildIndex r rs hmem hact hat hfe
  have h2 : (getCandidateRules (rebuildIndex initialState rs) c).1 =
      getCandidatesFromIndex (buildIndex rs) c := by
    simp [getCandidateRules, rebuildIndex]
  rw [h2]
  exact globalRules_subset_candidates _ _ _ h1

/-- C1 witness: the amended soundness at the concrete rule `x` (no index
terms) in a one-rule set, with a context it matches. -/
theorem c1_amended_global_soundness_witness :
    globalRule ∈ (getCandidateRules (rebuildIndex initialState [globalRule])
      globalCtx).1 := by
  have ht : tokenize "x" = [⟨.PATH, "x"⟩] := rfl
  have hp : parseTokens [⟨.PATH, "x"⟩] = .ok (.identifier "x") := by
    simp [parseTokens, parseOrAux, parseAndAux, parseComparisonAux, parsePrimaryAux,
      parseAndLoopAux, parseOrLoopAux, Bind.bind, Except.bind, Pure.pure, Except.pure,
      Functor.map, Except.map]
  have he : evalNode globalCtx (.identifier "x") = .ok true := rfl
  exact c1_amended_global_soundness globalRule [globalRule] globalCtx initialState 0 0
    (List.mem_singleton_self _) rfl rfl rfl
    (by simp [evaluateRule, evalCondition, globalRule, ht, hp, he, Bind.bind, Except.bind])

/-! ## C3 -/

/-- `evaluateRule` only ever touches the metrics map: the index, dirty
flag and rule cache are unchanged. -/
theorem evaluateRule_preserves_index (s : EngineState) (r : Rule) (c : JSVal)
    (t now : ℚ) :
    (evaluateRule s r c t now).2.ruleIndex = s.ruleIndex ∧
    (evaluateRule s r c t now).2.indexDirty = s.indexDirty ∧
    (evaluateRule s r c t now).2.cachedRules = s.cachedRules := by
  cases h : evalCondition r.condition c <;> simp [evaluateRule, h]

/-- The per-candidate evaluation fold of `evaluateRules` preserves the
index, dirty flag and rule cache. -/
theorem evalFold_preserves_index (c : JSVal) (t now : ℚ) :
    ∀ (l : List Rule) (acc : List DecisionResult × EngineState),
      (l.foldl (fun (acc : List DecisionResult × EngineState) r =>
        let out := evaluateRule acc.2 r c t now
        (acc.1 ++ [out.1], out.2)) acc).2.ruleIndex = acc.2.ruleIndex ∧
      (l.foldl (fun (acc : List DecisionResult × EngineState) r =>
        let out := evaluateRule acc.2 r c t now
        (acc.1 ++ [out.1], out.2)) acc).2.indexDirty = acc.2.indexDirty ∧
      (l.foldl (fun (acc : List DecisionResult × EngineState) r =>
        let out := evaluateRule acc.2 r c t now
        (acc.1 ++ [out.1], out.2)) acc).2.cachedRules = acc.2.cachedRules := by
  intro l
  induction l with
  | nil => intro acc; exact ⟨rfl, rfl, rfl⟩
  | cons a tl ih =>
    intro acc
    simp only [List.foldl_cons]
    obtain ⟨h1, h2, h3⟩ :=
      ih (acc.1 ++ [(evaluateRule acc.2 a c t now).1], (evaluateRule acc.2 a c t now).2)
    obtain ⟨g1, g2, g3⟩ := evaluateRule_preserves_index acc.2 a c t now
    exact ⟨by rw [h1]; exact g1, by rw [h2]; exact g2, by rw [h3]; exact g3⟩

/-- C3 (counterexample): on a fresh engine (dirty flag set, empty cache) a
bulk evaluation with a supplied rule list does *not* rebuild the index
from that list: the rule `x` (which matches the context, first conjunct)
is never even a candidate, the result list is empty, and the dirty flag
stays `true` — contradicting the claim that the rebuild uses the rule
list supplied to the call and that the flag transitions back to clean. -/
theorem c3_fresh_engine_ignores_supplied_rules :
    (evaluateRule initialState globalRule globalCtx 0 0).1.matched = true ∧
    (evaluateRules initialState [globalRule] globalCtx 0 0 0).1.results = [] ∧
    (evaluateRules initialState [globalRule] globalCtx 0 0 0).1.stats.candidateRules = 0 ∧
    (evaluateRules initialState [globalRule] globalCtx 0 0 0).2.indexDirty = true := by
  have ht : tokenize "x" = [⟨.PATH, "x"⟩] := rfl
  have hp : parseTokens [⟨.PATH, "x"⟩] = .ok (.identifier "x") := by
    simp [parseTokens, parseOrAux, parseAndAux, parseComparisonAux, parsePrimaryAux,
      parseAndLoopAux, parseOrLoopAux, Bind.bind, Except.bind, Pure.pure, Except.pure,
      Functor.map, Except.map]
  have he : evalNode globalCtx (.identifier "x") = .ok true := rfl
  refine ⟨?_, rfl, rfl, rfl⟩
  simp [evaluateRule, evalCondition, globalRule, ht, hp, he, Bind.bind, Except.bind]

/-- C3 (amended): when the dirty flag is set, the next bulk evaluation
rebuilds the index from the engine's *cached* rule list — the list passed
to the most recent explicit `rebuildIndex` call — and only when that
cache is non-empty; candidates are computed from the cached rules, not
from the list supplied to `evaluateRules` (which is used for statistics
only), and then the dirty flag transitions back to clean.  (With an empty
cache, no rebuild happens and the flag stays dirty — see the
counterexample.) -/
theorem c3_amended_rebuild_from_cached :
    ∀ (s : EngineState) (rules : List Rule) (c : JSVal) (t now et : ℚ),
      s.indexDirty = true → s.cachedRules ≠ [] →
      (evaluateRules s rules c t now et).2.indexDirty = false ∧
      (evaluateRules s rules c t now et).2.ruleIndex = buildIndex s.cachedRules ∧
      (evaluateRules s rules c t now et).1.stats.candidateRules =
        (getCandidatesFromIndex (buildIndex s.cachedRules) c).length := by
  intro s rules c t now et hd hne
  have hpos : s.cachedRules.length > 0 := List.length_pos.mpr hne
  have hcand : getCandidateRules s c =
      (getCandidatesFromIndex (buildIndex s.cachedRules) c, rebuildIndex s s.cachedRules) := by
    simp [getCandidateRules, rebuildIndex, hd, hpos]
  obtain ⟨h1, h2, h3⟩ := evalFold_preserves_index c t now
    ((getCandidatesFromIndex (buildIndex s.cachedRules) c).filter (fun r => r.active))
    ([], rebuildIndex s s.cachedRules)
  refine ⟨?_, ?_, ?_⟩
  · simp only [evaluateRules, hcand]
    rw [h2]
    simp [rebuildIndex]
  · simp only [evaluateRules, hcand]
    rw [h1]
    simp [rebuildIndex]
  · simp [evaluateRules, hcand]

/-- C3 witness: a dirty engine whose cache holds the one-rule list `[x]`
rebuilds from that cache on the next bulk evaluation (called here with an
empty supplied list). -/
theorem c3_amended_rebuild_from_cached_witness :
    (evaluateRules { initialState with cachedRules := [globalRule] } [] globalCtx
      0 0 0).2.indexDirty = false ∧
    (evaluateRules { initialState with cachedRules := [globalRule] } [] globalCtx
      0 0 0).2.ruleIndex =
      buildIndex ({ initialState with cachedRules := [globalRule] } : EngineState).cachedRules ∧
    (evaluateRules { initialState with cachedRules := [globalRule] } [] globalCtx
      0 0 0).1.stats.candidateRules =
      (getCandidatesFromIndex
        (buildIndex ({ initialState with cachedRules := [globalRule] } : EngineState).cachedRules)
        globalCtx).length :=
  c3_amended_rebuild_from_cached { initialState with cachedRules := [globalRule] }
    [] globalCtx 0 0 0 rfl (by simp)

/-! ## C8 -/

/-- Reading an ascending-sorted pool at index `⌊n·p⌋` is monotone in the
percentile `p` (for `0 ≤ p ≤ q < 1` the indices are valid and ordered). -/
theorem sorted_getD_percentile_mono (l : List ℚ) (hl : l ≠ []) (p q : ℚ)
    (_hp : 0 ≤ p) (hpq : p ≤ q) (hq : q < 1) :
    (l.insertionSort (fun a b => a ≤ b)).getD
        ((((l.insertionSort (fun a b => a ≤ b)).length : ℚ) * p).floor).toNat 0 ≤
      (l.insertionSort (fun a b => a ≤ b)).getD
        ((((l.insertionSort (fun a b => a ≤ b)).length : ℚ) * q).floor).toNat 0 := by
  set L := l.insertionSort (fun a b => a ≤ b) with hL
  have hlen : L.length = l.length := (List.perm_insertionSort _ l).length_eq
  have hpos : 0 < L.length := by
    rw [hlen]
    exact List.length_pos.mpr hl
  have hsort : L.Sorted (fun a b => a ≤ b) := List.sorted_insertionSort _ l
  have hnpos : (0 : ℚ) < (L.length : ℚ) := by exact_mod_cast hpos
  have hiq : (((L.length : ℚ) * q).floor).toNat < L.length := by
    have h1 : ((L.length : ℚ) * q) < ((L.length : ℚ) : ℚ) := by
      calc ((L.length : ℚ)) * q < ((L.length : ℚ)) * 1 :=
        mul_lt_mul_of_pos_left hq hnpos
      _ = (L.length : ℚ) := mul_one _
    have h2 : ((L.length : ℚ) * q).floor < (L.length : ℤ) :=
      Int.floor_lt.mpr (by exact_mod_cast h1)
    omega
  have hip : (((L.length : ℚ) * p).floor).toNat ≤ (((L.length : ℚ) * q).floor).toNat := by
    have h3 : ((L.length : ℚ) * p).floor ≤ ((L.length : ℚ) * q).floor :=
      Int.floor_mono (mul_le_mul_of_nonneg_left hpq (le_of_lt hnpos))
    omega
  rw [List.getD_eq_get L 0 (lt_of_le_of_lt hip hiq), List.getD_eq_get L 0 hiq]
  exact hsort.rel_get_of_le (Fin.mk_le_mk.mpr hip)

/-- C8: whenever the pooled execution-time sample (the union of all
retained per-rule `executionTimes`) is non-empty, the percentiles reported
by `getSystemMetrics` satisfy `p50 ≤ p95 ≤ p99`: the pooled sample is
sorted ascending and indexed at `⌊n·p⌋`, and those indices are valid and
monotone in `p`. -/
theorem c8_percentile_ordering :
    ∀ s : EngineState,
      (s.metrics.map (fun kv => kv.2)).flatMap (fun m => m.executionTimes) ≠ [] →
      (getSystemMetrics s).p50ExecutionTime ≤ (getSystemMetrics s).p95ExecutionTime ∧
      (getSystemMetrics s).p95ExecutionTime ≤ (getSystemMetrics s).p99ExecutionTime := by
  intro s hne
  have hM : ¬((s.metrics.map (fun kv => kv.2)).length = 0) := by
    intro h0
    rw [List.length_eq_zero] at h0
    exact hne (by rw [h0]; rfl)
  simp only [getSystemMetrics]
  rw [if_neg hM]
  constructor
  · exact sorted_getD_percentile_mono _ hne (50 / 100) (95 / 100)
      (by norm_num) (by norm_num) (by norm_num)
  · exact sorted_getD_percentile_mono _ hne (95 / 100) (99 / 100)
      (by norm_num) (by norm_num) (by norm_num)

/-- C8 witness: the percentile ordering at a concrete engine state whose
pool holds the single sample `2`. -/
theorem c8_percentile_ordering_witness :
    (getSystemMetrics { initialState with
      metrics := [("a", ⟨"a", 1, 0, [2], 0⟩)] }).p50ExecutionTime ≤
      (getSystemMetrics { initialState with
        metrics := [("a", ⟨"a", 1, 0, [2], 0⟩)] }).p95ExecutionTime ∧
    (getSystemMetrics { initialState with
      metrics := [("a", ⟨"a", 1, 0, [2], 0⟩)] }).p95ExecutionTime ≤
      (getSystemMetrics { initialState with
        metrics := [("a", ⟨"a", 1, 0, [2], 0⟩)] }).p99ExecutionTime :=
  c8_percentile_ordering { initialState with metrics := [("a", ⟨"a", 1, 0, [2], 0⟩)] }
    (by simp)

/-! ## C10 -/

/-- `Parser.parsePrimary` as a plain pair (AST, unconsumed tokens). -/
def parsePrimary (ts : List Token) : Except String (ASTNode × List Token) :=
  (parsePrimaryAux ts).map (fun out => (out.1, out.2.1))

/-- `Parser.parseComparison` as a plain pair. -/
def parseComparison (ts : List Token) : Except String (ASTNode × List Token) :=
  (parseComparisonAux ts).map (fun out => (out.1, out.2.1))

/-- The `parseAnd` loop as a plain pair. -/
def parseAndLoop (left : ASTNode) (ts : List Token) : Except String (ASTNode × List Token) :=
  (parseAndLoopAux left ts).map (fun out => (out.1, out.2.1))

/-- `Parser.parseAnd` as a plain pair. -/
def parseAnd (ts : List Token) : Except String (ASTNode × List Token) :=
  (parseAndAux ts).map (fun out => (out.1, out.2.1))

/-- The `parseOr` loop as a plain pair. -/
def parseOrLoop (left : ASTNode) (ts : List Token) : Except String (ASTNode × List Token) :=
  (parseOrLoopAux left ts).map (fun out => (out.1, out.2.1))

/-- `Parser.parseOr` as a plain pair. -/
def parseOr (ts : List Token) : Except String (ASTNode × List Token) :=
  (parseOrAux ts).map (fun out => (out.1, out.2.1))

theorem parsePrimary_eq (ts : List Token) :
    parsePrimary ts =
      (match ts with
      | [] => .error "Unexpected end of input"
      | token :: rest =>
        if token.type = .PATH then .ok (.identifier token.value, rest)
        else if token.type = .PAREN ∧ token.value = "(" then
          (parseOr rest).bind (fun out =>
            match out.2 with
            | t :: rest2 =>
              if t.value = ")" then .ok (out.1, rest2)
              else .error "Expected closing parenthesis"
            | [] => .error "Expected closing parenthesis")
        else if token.type = .VALUE then
          match jsStrToNumber token.value with
          | some n => .ok (.literal (.num n), rest)
          | none => .ok (.literal (.str token.value), rest)
        else .error ("Unexpected token: " ++ token.value)) := by
  cases ts with
  | nil => simp [parsePrimary, parsePrimaryAux, Except.map]
  | cons token rest =>
    simp only [parsePrimary, parsePrimaryAux]
    split_ifs with h1 h2 h3
    · simp [Except.map]
    · simp only [parseOr]
      cases hpo : parseOrAux rest with
      | error e => simp [hpo, Except.map, Bind.bind, Except.bind, Pure.pure, Except.pure]
      | ok out =>
        obtain ⟨expr, rest1, hr1⟩ := out
        cases rest1 with
        | nil => simp [hpo, Except.map, Bind.bind, Except.bind, Pure.pure, Except.pure]
        | cons t rest2 =>
          by_cases ht : t.value = ")"
          · simp [hpo, ht, Except.map, Bind.bind, Except.bind, Pure.pure, Except.pure]
          · simp [hpo, ht, Except.map, Bind.bind, Except.bind, Pure.pure, Except.pure]
    · cases hn : jsStrToNumber token.value with
      | some n => simp [hn, Except.map]
      | none => simp [hn, Except.map]
    · simp [Except.map]

theorem parseComparison_eq (ts : List Token) :
    parseComparison ts =
      (parsePrimary ts).bind (fun out =>
        match out.2 with
        | token :: rest1 =>
          if token.type = .OPERATOR then
            (parsePrimary rest1).bind (fun out2 =>
              .ok (.binaryOp token.value out.1 out2.1, out2.2))
          else .ok (out.1, token :: rest1)
        | [] => .ok (out.1, [])) := by
  simp only [parseComparison, parseComparisonAux, parsePrimary]
  cases hp : parsePrimaryAux ts with
  | error e => simp [hp, Except.map, Bind.bind, Except.bind, Pure.pure, Except.pure]
  | ok out =>
    obtain ⟨left, rest0, h0⟩ := out
    cases rest0 with
    | nil => simp [hp, Except.map, Bind.bind, Except.bind, Pure.pure, Except.pure]
    | cons token rest1 =>
      by_cases hop : token.type = .OPERATOR
      · simp only [hp, hop, if_true, Except.map, Bind.bind, Except.bind, Pure.pure, Except.pure]
        cases hp2 : parsePrimaryAux rest1 with
        | error e => simp [hp2, Except.map, Bind.bind, Except.bind, Pure.pure, Except.pure]
        | ok out2 => simp [hp2, Except.map, Bind.bind, Except.bind, Pure.pure, Except.pure]
      · simp [hp, hop, Except.map, Bind.bind, Except.bind, Pure.pure, Except.pure]

theorem parseAndLoop_eq (left : ASTNode) (ts : List Token) :
    parseAndLoop left ts =
      (match ts with
      | token :: rest =>
        if token.type = .LOGICAL ∧ token.value = "and" then
          (parseComparison rest).bind (fun out =>
            parseAndLoop (.binaryOp "and" left out.1) out.2)
        else .ok (left, token :: rest)
      | [] => .ok (left, [])) := by
  cases ts with
  | nil => simp [parseAndLoop, parseAndLoopAux, Except.map]
  | cons token rest =>
    simp only [parseAndLoop, parseAndLoopAux, parseComparison]
    split_ifs with h1
    · cases hc : parseComparisonAux rest with
      | error e => simp [hc, Except.map, Bind.bind, Except.bind, Pure.pure, Except.pure]
      | ok out =>
        obtain ⟨right, rest1, hr1⟩ := out
        simp only [hc, Except.map, Bind.bind, Except.bind, Pure.pure, Except.pure]
        cases hl : parseAndLoopAux (.binaryOp "and" left right) rest1 with
        | error e => simp [parseAndLoop, hl, Except.map, Bind.bind, Except.bind, Pure.pure, Except.pure]
        | ok out2 => simp [parseAndLoop, hl, Except.map, Bind.bind, Except.bind, Pure.pure, Except.pure]
    · simp [Except.map]

theorem parseAnd_eq (ts : List Token) :
    parseAnd ts =
      (parseComparison ts).bind (fun out => parseAndLoop out.1 out.2) := by
  simp only [parseAnd, parseAndAux, parseComparison, parseAndLoop]
  cases hc : parseComparisonAux ts with
  | error e => simp [hc, Except.map, Bind.bind, Except.bind, Pure.pure, Except.pure]
  | ok out =>
    obtain ⟨left, rest0, h0⟩ := out
    simp only [hc, Except.map, Bind.bind, Except.bind, Pure.pure, Except.pure]
    cases hl : parseAndLoopAux left rest0 with
    | error e => simp [hl, Except.map, Bind.bind, Except.bind, Pure.pure, Except.pure]
    | ok out2 => simp [hl, Except.map, Bind.bind, Except.bind, Pure.pure, Except.pure]

theorem parseOrLoop_eq (left : ASTNode) (ts : List Token) :
    parseOrLoop left ts =
      (match ts with
      | token :: rest =>
        if token.type = .LOGICAL ∧ token.value = "or" then
          (parseAnd rest).bind (fun out =>
            parseOrLoop (.binaryOp "or" left out.1) out.2)
        else .ok (left, token :: rest)
      | [] => .ok (left, [])) := by
  cases ts with
  | nil => simp [parseOrLoop, parseOrLoopAux, Except.map]
  | cons token rest =>
    simp only [parseOrLoop, parseOrLoopAux, parseAnd]
    split_ifs with h1
    · cases hc : parseAndAux rest with
      | error e => simp [hc, Except.map, Bind.bind, Except.bind, Pure.pure, Except.pure]
      | ok out =>
        obtain ⟨right, rest1, hr1⟩ := out
        simp only [hc, Except.map, Bind.bind, Except.bind, Pure.pure, Except.pure]
        cases hl : parseOrLoopAux (.binaryOp "or" left right) rest1 with
        | error e => simp [parseOrLoop, hl, Except.map, Bind.bind, Except.bind, Pure.pure, Except.pure]
        | ok out2 => simp [parseOrLoop, hl, Except.map, Bind.bind, Except.bind, Pure.pure, Except.pure]
    · simp [Except.map]

theorem parseOr_eq (ts : List Token) :
    parseOr ts =
      (parseAnd ts).bind (fun out => parseOrLoop out.1 out.2) := by
  simp only [parseOr, parseOrAux, parseAnd, parseOrLoop]
  cases hc : parseAndAux ts with
  | error e => simp [hc, Except.map, Bind.bind, Except.bind, Pure.pure, Except.pure]
  | ok out =>
    obtain ⟨left, rest0, h0⟩ := out
    simp only [hc, Except.map, Bind.bind, Except.bind, Pure.pure, Except.pure]
    cases hl : parseOrLoopAux left rest0 with
    | error e => simp [hl, Except.map, Bind.bind, Except.bind, Pure.pure, Except.pure]
    | ok out2 => simp [hl, Except.map, Bind.bind, Except.bind, Pure.pure, Except.pure]

/-- `parse` drops the final position of `parseOr`. -/
theorem parseTokens_eq_parseOr (ts : List Token) :
    parseTokens ts = (parseOr ts).map (fun out => out.1) := by
  simp only [parseTokens, parseOr]
  cases h : parseOrAux ts <;> rfl

/-- Ok results of `parsePrimary` consume at least one token. -/
theorem parsePrimary_consumes {ts : List Token} {a : ASTNode} {rest : List Token}
    (h : parsePrimary ts = .ok (a, rest)) : rest.length < ts.length := by
  simp only [parsePrimary] at h
  cases hp : parsePrimaryAux ts with
  | error e => rw [hp] at h; simp [Except.map] at h
  | ok out =>
    rw [hp] at h
    simp only [Except.map, Except.ok.injEq, Prod.mk.injEq] at h
    obtain ⟨-, h2⟩ := h
    exact h2 ▸ out.2.2

/-- Ok results of `parseComparison` consume at least one token. -/
theorem parseComparison_consumes {ts : List Token} {a : ASTNode} {rest : List Token}
    (h : parseComparison ts = .ok (a, rest)) : rest.length < ts.length := by
  simp only [parseComparison] at h
  cases hp : parseComparisonAux ts with
  | error e => rw [hp] at h; simp [Except.map] at h
  | ok out =>
    rw [hp] at h
    simp only [Except.map, Except.ok.injEq, Prod.mk.injEq] at h
    obtain ⟨-, h2⟩ := h
    exact h2 ▸ out.2.2

/-- Ok results of `parseAnd` consume at least one token. -/
theorem parseAnd_consumes {ts : List Token} {a : ASTNode} {rest : List Token}
    (h : parseAnd ts = .ok (a, rest)) : rest.length < ts.length := by
  simp only [parseAnd] at h
  cases hp : parseAndAux ts with
  | error e => rw [hp] at h; simp [Except.map] at h
  | ok out =>
    rw [hp] at h
    simp only [Except.map, Except.ok.injEq, Prod.mk.injEq] at h
    obtain ⟨-, h2⟩ := h
    exact h2 ▸ out.2.2

/-- A token list whose head (if any) can never extend a complete
expression: neither a `LOGICAL` connective nor a comparison `OPERATOR`. -/
def inertHead (extra : List Token) : Prop :=
  ∀ tk : Token, extra.head? = some tk →
    tk.type ≠ TokenType.LOGICAL ∧ tk.type ≠ TokenType.OPERATOR

/-- The `parseAnd` loop stops immediately on an inert-headed list. -/
theorem parseAndLoop_inert (left : ASTNode) (l : List Token) (hx : inertHead l) :
    parseAndLoop left l = .ok (left, l) := by
  rw [parseAndLoop_eq]
  cases l with
  | nil => rfl
  | cons tk ex =>
    have := (hx tk rfl).1
    simp [this]

/-- The `parseOr` loop stops immediately on an inert-headed list. -/
theorem parseOrLoop_inert (left : ASTNode) (l : List Token) (hx : inertHead l) :
    parseOrLoop left l = .ok (left, l) := by
  rw [parseOrLoop_eq]
  cases l with
  | nil => rfl
  | cons tk ex =>
    have := (hx tk rfl).1
    simp [this]

/-- Extension property, proved for all six parser levels simultaneously by
strong induction on the input length: appending an inert-headed token list
to the input of an ok parse leaves the parsed AST unchanged and appends
the same list to the unconsumed remainder. -/
theorem parser_extension (extra : List Token) (hx : inertHead extra) :
    ∀ n : Nat, ∀ ts : List Token, ts.length ≤ n →
      ((∀ a rest, parsePrimary ts = .ok (a, rest) →
          parsePrimary (ts ++ extra) = .ok (a, rest ++ extra)) ∧
       (∀ a rest, parseComparison ts = .ok (a, rest) →
          parseComparison (ts ++ extra) = .ok (a, rest ++ extra)) ∧
       (∀ left a rest, parseAndLoop left ts = .ok (a, rest) →
          parseAndLoop left (ts ++ extra) = .ok (a, rest ++ extra)) ∧
       (∀ a rest, parseAnd ts = .ok (a, rest) →
          parseAnd (ts ++ extra) = .ok (a, rest ++ extra)) ∧
       (∀ left a rest, parseOrLoop left ts = .ok (a, rest) →
          parseOrLoop left (ts ++ extra) = .ok (a, rest ++ extra)) ∧
       (∀ a rest, parseOr ts = .ok (a, rest) →
          parseOr (ts ++ extra) = .ok (a, rest ++ extra))) := by
  intro n
  induction n using Nat.strong_induction_on with
  | _ n ih =>
    intro ts hts
    -- parsePrimary
    have hP : ∀ a rest, parsePrimary ts = .ok (a, rest) →
        parsePrimary (ts ++ extra) = .ok (a, rest ++ extra) := by
      intro a rest h
      cases ts with
      | nil => rw [parsePrimary_eq] at h; simp at h
      | cons token rest' =>
        have hlen' : rest'.length < n := by
          simp only [List.length_cons] at hts
          omega
        rw [parsePrimary_eq] at h
        rw [List.cons_append, parsePrimary_eq]
        by_cases h1 : token.type = TokenType.PATH
        · simp only [h1, if_true] at h ⊢
          simp only [Except.ok.injEq, Prod.mk.injEq] at h
          obtain ⟨rfl, rfl⟩ := h
          rfl
        · by_cases h2 : token.type = TokenType.PAREN ∧ token.value = "("
          · simp only [h1, h2, if_false, if_true] at h ⊢
            cases hpo : parseOr rest' with
            | error e => rw [hpo] at h; simp [Except.bind] at h
            | ok out =>
              obtain ⟨expr, rest1⟩ := out
              rw [hpo] at h
              simp only [Except.bind] at h
              cases rest1 with
              | nil => simp at h
              | cons t rest2 =>
                by_cases ht : t.value = ")"
                · simp only [ht, if_true, Except.ok.injEq, Prod.mk.injEq] at h
                  obtain ⟨rfl, rfl⟩ := h
                  have hor : parseOr (rest' ++ extra) = .ok (a, (t :: rest) ++ extra) :=
                    (ih rest'.length hlen' rest' (le_refl _)).2.2.2.2.2 a (t :: rest) hpo
                  rw [hor]
                  simp [Except.bind, ht]
                · simp [ht] at h
          · by_cases h3 : token.type = TokenType.VALUE
            · simp only [h1, h2, h3, if_false, if_true] at h ⊢
              cases hn : jsStrToNumber token.value with
              | some v =>
                rw [hn] at h
                simp only [Except.ok.injEq, Prod.mk.injEq] at h
                obtain ⟨rfl, rfl⟩ := h
                rfl
              | none =>
                rw [hn] at h
                simp only [Except.ok.injEq, Prod.mk.injEq] at h
                obtain ⟨rfl, rfl⟩ := h
                rfl
            · simp [h1, h2, h3] at h
    -- parseComparison
    have hC : ∀ a rest, parseComparison ts = .ok (a, rest) →
        parseComparison (ts ++ extra) = .ok (a, rest ++ extra) := by
      intro a rest h
      rw [parseComparison_eq] at h
      rw [parseComparison_eq]
      cases hp : parsePrimary ts with
      | error e => rw [hp] at h; simp [Except.bind] at h
      | ok out =>
        obtain ⟨left, rest0⟩ := out
        have hb0 : rest0.length < ts.length := parsePrimary_consumes hp
        rw [hp] at h
        simp only [Except.bind] at h
        rw [hP left rest0 hp]
        simp only [Except.bind]
        cases rest0 with
        | nil =>
          simp only [Except.ok.injEq, Prod.mk.injEq] at h
          obtain ⟨rfl, rfl⟩ := h
          cases hex : extra with
          | nil => simp
          | cons tk ex' =>
            have := (hx tk (by rw [hex]; rfl)).2
            simp [this]
        | cons token rest1 =>
          simp only [List.cons_append]
          by_cases hop : token.type = TokenType.OPERATOR
          · simp only [hop, if_true] at h ⊢
            cases hp2 : parsePrimary rest1 with
            | error e => rw [hp2] at h; simp [Except.bind] at h
            | ok out2 =>
              obtain ⟨right, rest2⟩ := out2
              rw [hp2] at h
              simp only [Except.bind, Except.ok.injEq, Prod.mk.injEq] at h
              obtain ⟨rfl, rfl⟩ := h
              have hlen1 : rest1.length < n := by
                simp only [List.length_cons] at hb0
                omega
              have hp2' : parsePrimary (rest1 ++ extra) = .ok (right, rest2 ++ extra) :=
                (ih rest1.length hlen1 rest1 (le_refl _)).1 right rest2 hp2
              try rw [hp2']
              try simp [Except.bind]
          · simp only [hop, if_false] at h ⊢
            simp only [Except.ok.injEq, Prod.mk.injEq] at h
            obtain ⟨rfl, rfl⟩ := h
            simp
    -- parseAndLoop
    have hAL : ∀ left a rest, parseAndLoop left ts = .ok (a, rest) →
        parseAndLoop left (ts ++ extra) = .ok (a, rest ++ extra) := by
      intro left a rest h
      cases ts with
      | nil =>
        rw [parseAndLoop_eq] at h
        simp only [Except.ok.injEq, Prod.mk.injEq] at h
        obtain ⟨rfl, rfl⟩ := h
        simpa using parseAndLoop_inert left extra hx
      | cons token rest' =>
        have hlen' : rest'.length < n := by
          simp only [List.length_cons] at hts
          omega
        rw [parseAndLoop_eq] at h
        rw [List.cons_append, parseAndLoop_eq]
        by_cases h1 : token.type = TokenType.LOGICAL ∧ token.value = "and"
        · simp only [h1, if_true] at h ⊢
          cases hc : parseComparison rest' with
          | error e => rw [hc] at h; simp [Except.bind] at h
          | ok out =>
            obtain ⟨right, rest1⟩ := out
            rw [hc] at h
            simp only [Except.bind] at h
            have hb1 : rest1.length < rest'.length := parseComparison_consumes hc
            have hc' : parseComparison (rest' ++ extra) = .ok (right, rest1 ++ extra) :=
              (ih rest'.length hlen' rest' (le_refl _)).2.1 right rest1 hc
            rw [hc']
            simp only [Except.bind]
            have hlen1 : rest1.length < n := by omega
            exact (ih rest1.length hlen1 rest1 (le_refl _)).2.2.1
              (.binaryOp "and" left right) a rest h
        · simp only [h1, if_false] at h ⊢
          simp only [Except.ok.injEq, Prod.mk.injEq] at h
          obtain ⟨rfl, rfl⟩ := h
          rfl
    -- parseAnd
    have hA : ∀ a rest, parseAnd ts = .ok (a, rest) →
        parseAnd (ts ++ extra) = .ok (a, rest ++ extra) := by
      intro a rest h
      rw [parseAnd_eq] at h
      rw [parseAnd_eq]
      cases hc : parseComparison ts with
      | error e => rw [hc] at h; simp [Except.bind] at h
      | ok out =>
        obtain ⟨left, rest0⟩ := out
        rw [hc] at h
        simp only [Except.bind] at h
        rw [hC left rest0 hc]
        simp only [Except.bind]
        have hb0 : rest0.length < ts.length := parseComparison_consumes hc
        have hlen0 : rest0.length < n := by omega
        exact (ih rest0.length hlen0 rest0 (le_refl _)).2.2.1 left a rest h
    -- parseOrLoop
    have hOL : ∀ left a rest, parseOrLoop left ts = .ok (a, rest) →
        parseOrLoop left (ts ++ extra) = .ok (a, rest ++ extra) := by
      intro left a rest h
      cases ts with
      | nil =>
        rw [parseOrLoop_eq] at h
        simp only [Except.ok.injEq, Prod.mk.injEq] at h
        obtain ⟨rfl, rfl⟩ := h
        simpa using parseOrLoop_inert left extra hx
      | cons token rest' =>
        have hlen' : rest'.length < n := by
          simp only [List.length_cons] at hts
          omega
        rw [parseOrLoop_eq] at h
        rw [List.cons_append, parseOrLoop_eq]
        by_cases h1 : token.type = TokenType.LOGICAL ∧ token.value = "or"
        · simp only [h1, if_true] at h ⊢
          cases hc : parseAnd rest' with
          | error e => rw [hc] at h; simp [Except.bind] at h
          | ok out =>
            obtain ⟨right, rest1⟩ := out
            rw [hc] at h
            simp only [Except.bind] at h
            have hb1 : rest1.length < rest'.length := parseAnd_consumes hc
            have hc' : parseAnd (rest' ++ extra) = .ok (right, rest1 ++ extra) :=
              (ih rest'.length hlen' rest' (le_refl _)).2.2.2.1 right rest1 hc
            rw [hc']
            simp only [Except.bind]
            have hlen1 : rest1.length < n := by omega
            exact (ih rest1.length hlen1 rest1 (le_refl _)).2.2.2.2.1
              (.binaryOp "or" left right) a rest h
        · simp only [h1, if_false] at h ⊢
          simp only [Except.ok.injEq, Prod.mk.injEq] at h
          obtain ⟨rfl, rfl⟩ := h
          rfl
    -- parseOr
    have hO : ∀ a rest, parseOr ts = .ok (a, rest) →
        parseOr (ts ++ extra) = .ok (a, rest ++ extra) := by
      intro a rest h
      rw [parseOr_eq] at h
      rw [parseOr_eq]
      cases hc : parseAnd ts with
      | error e => rw [hc] at h; simp [Except.bind] at h
      | ok out =>
        obtain ⟨left, rest0⟩ := out
        rw [hc] at h
        simp only [Except.bind] at h
        rw [hA left rest0 hc]
        simp only [Except.bind]
        have hb0 : rest0.length < ts.length := parseAnd_consumes hc
        have hlen0 : rest0.length < n := by omega
        exact (ih rest0.length hlen0 rest0 (le_refl _)).2.2.2.2.1 left a rest h
    exact ⟨hP, hC, hAL, hA, hOL, hO⟩

/-- Concrete number parse used by the C10 calculations. -/
theorem jsStrToNumber_five : jsStrToNumber "5" = some 5 := by
  simp [jsStrToNumber, parseDecFull, jsTrim, jsIsWhitespace, jsIsDigit, digitsToNat,
    jsIsHexDigit, hexDigitVal]

/-- C10 (counterexample): the claim quantifies over every token stream
that begins with a complete expression followed by one or more additional
tokens, but when the first trailing token is a `LOGICAL` connective the
parser does not stop after the leading expression: `x > 5` is a complete
expression (`parseOr` consumes its whole stream), `x > 5 and` tokenizes to
exactly that stream plus one additional token, yet `validateCondition`
returns `valid = false` with a parse error instead of the claimed
`valid = true`. -/
theorem c10_trailing_logical_rejected :
    parseOr (tokenize "x > 5") =
      .ok (.binaryOp ">" (.identifier "x") (.literal (.num 5)), []) ∧
    tokenize "x > 5 and" = tokenize "x > 5" ++ [⟨TokenType.LOGICAL, "and"⟩] ∧
    validateCondition "x > 5 and" =
      { valid := false, error := some "Unexpected end of input" } := by
  have ht1 : tokenize "x > 5" =
      [⟨TokenType.PATH, "x"⟩, ⟨TokenType.OPERATOR, ">"⟩, ⟨TokenType.VALUE, "5"⟩] := rfl
  have ht2 : tokenize "x > 5 and" =
      [⟨TokenType.PATH, "x"⟩, ⟨TokenType.OPERATOR, ">"⟩, ⟨TokenType.VALUE, "5"⟩,
       ⟨TokenType.LOGICAL, "and"⟩] := rfl
  refine ⟨?_, by rw [ht1, ht2]; rfl, ?_⟩
  · rw [ht1]
    simp [parseOr, parseOrAux, parseAndAux, parseComparisonAux, parsePrimaryAux,
      parseAndLoopAux, parseOrLoopAux, jsStrToNumber_five,
      Bind.bind, Except.bind, Pure.pure, Except.pure, Functor.map, Except.map]
  · have hp : parseTokens (tokenize "x > 5 and") = .error "Unexpected end of input" := by
      rw [ht2]
      simp [parseTokens, parseOrAux, parseAndAux, parseComparisonAux, parsePrimaryAux,
        parseAndLoopAux, parseOrLoopAux, jsStrToNumber_five,
        Bind.bind, Except.bind, Pure.pure, Except.pure, Functor.map, Except.map]
    simp [validateCondition, hp]

/-- C10 (amended): `parse` never checks that the token stream was fully
consumed — it succeeds whenever the leading expression parses, whatever
tokens remain — and the trailing tokens are ignored whenever they cannot
extend the expression, i.e. when the first trailing token is neither a
`LOGICAL` connective nor a comparison `OPERATOR`; in particular both of
the claim's example conditions validate as `valid = true` and parse to the
AST of `x > 5` alone. -/
theorem c10_amended_trailing_tokens_dropped :
    (∀ (ts : List Token) (a : ASTNode) (rest : List Token),
        parseOr ts = .ok (a, rest) → parseTokens ts = .ok a) ∧
    (∀ (ts extra : List Token) (a : ASTNode), inertHead extra →
        parseOr ts = .ok (a, []) →
        parseOr (ts ++ extra) = .ok (a, extra) ∧ parseTokens (ts ++ extra) = .ok a) ∧
    parseTokens (tokenize "x > 5 y < 2") =
      .ok (.binaryOp ">" (.identifier "x") (.literal (.num 5))) ∧
    validateCondition "x > 5 y < 2" = { valid := true, error := none } ∧
    parseTokens (tokenize "x > 5 And y < 10") =
      .ok (.binaryOp ">" (.identifier "x") (.literal (.num 5))) ∧
    validateCondition "x > 5 And y < 10" = { valid := true, error := none } := by
  have hdrop : ∀ (ts : List Token) (a : ASTNode) (rest : List Token),
      parseOr ts = .ok (a, rest) → parseTokens ts = .ok a := by
    intro ts a rest h
    rw [parseTokens_eq_parseOr, h]
    rfl
  have hext : ∀ (ts extra : List Token) (a : ASTNode), inertHead extra →
      parseOr ts = .ok (a, []) →
      parseOr (ts ++ extra) = .ok (a, extra) ∧ parseTokens (ts ++ extra) = .ok a := by
    intro ts extra a hx h
    have ho := (parser_extension extra hx ts.length ts (le_refl _)).2.2.2.2.2 a [] h
    exact ⟨ho, hdrop _ a extra ho⟩
  have ht1 : tokenize "x > 5 y < 2" =
      [⟨TokenType.PATH, "x"⟩, ⟨TokenType.OPERATOR, ">"⟩, ⟨TokenType.VALUE, "5"⟩,
       ⟨TokenType.PATH, "y"⟩, ⟨TokenType.OPERATOR, "<"⟩, ⟨TokenType.VALUE, "2"⟩] := rfl
  have ht2 : tokenize "x > 5 And y < 10" =
      [⟨TokenType.PATH, "x"⟩, ⟨TokenType.OPERATOR, ">"⟩, ⟨TokenType.VALUE, "5"⟩,
       ⟨TokenType.PATH, "And"⟩, ⟨TokenType.PATH, "y"⟩, ⟨TokenType.OPERATOR, "<"⟩,
       ⟨TokenType.VALUE, "10"⟩] := rfl
  have hp1 : parseTokens (tokenize "x > 5 y < 2") =
      .ok (.binaryOp ">" (.identifier "x") (.literal (.num 5))) := by
    rw [ht1]
    simp [parseTokens, parseOrAux, parseAndAux, parseComparisonAux, parsePrimaryAux,
      parseAndLoopAux, parseOrLoopAux, jsStrToNumber_five,
      Bind.bind, Except.bind, Pure.pure, Except.pure, Functor.map, Except.map]
  have hp2 : parseTokens (tokenize "x > 5 And y < 10") =
      .ok (.binaryOp ">" (.identifier "x") (.literal (.num 5))) := by
    rw [ht2]
    simp [parseTokens, parseOrAux, parseAndAux, parseComparisonAux, parsePrimaryAux,
      parseAndLoopAux, parseOrLoopAux, jsStrToNumber_five,
      Bind.bind, Except.bind, Pure.pure, Except.pure, Functor.map, Except.map]
  refine ⟨hdrop, hext, hp1, by simp [validateCondition, hp1], hp2,
    by simp [validateCondition, hp2]⟩

/-- C10 witness: the amended extension property applied at the concrete
complete expression `x` followed by the inert trailing token `y`. -/
theorem c10_amended_trailing_tokens_dropped_witness :
    parseOr ([⟨TokenType.PATH, "x"⟩] ++ [⟨TokenType.PATH, "y"⟩]) =
      .ok (.identifier "x", [⟨TokenType.PATH, "y"⟩]) ∧
    parseTokens ([⟨TokenType.PATH, "x"⟩] ++ [⟨TokenType.PATH, "y"⟩]) =
      .ok (.identifier "x") :=
  c10_amended_trailing_tokens_dropped.2.1
    [⟨TokenType.PATH, "x"⟩] [⟨TokenType.PATH, "y"⟩] (.identifier "x")
    (by
      intro tk h
      simp only [List.head?_cons, Option.some.injEq] at h
      subst h
      exact ⟨by decide, by decide⟩)
    (by
      simp [parseOr, parseOrAux, parseAndAux, parseComparisonAux, parsePrimaryAux,
        parseAndLoopAux, parseOrLoopAux,
        Bind.bind, Except.bind, Pure.pure, Except.pure, Functor.map, Except.map])

end DecisionEngineModel
